import Mathlib

/-!
# Label inheritance operator: the reconciliation pass

A shallow embedding of `internal/controller/inheritor_controller.go`
(`Reconcile`, `syncPodLabels`, `syncConfigMapLabels`) together with the part of
the Kubernetes client the controller talks to.

* Go maps (`map[string]T`) are association lists; a `nil` map is `none`.
* The cluster store is an explicit value of type `Cluster` that is passed
  through every client call.  Each call is recorded, with its outcome, in
  `Cluster.trace`; `Cluster.faults` decides, from the calls made so far and the
  call being made, whether the store refuses the call.
* `return` from inside a Go `for` loop is the `LoopExit.returned` constructor.
-/

set_option autoImplicit false

namespace LabelInheritance

/-! ## Go maps -/

/-- Go `v, ok := m[k]` on a non-nil map: the first binding of `k`. -/
def mapFind {β : Type} : List (String × β) → String → Option β
  | [], _ => none
  | (k', v) :: rest, k => if k' = k then some v else mapFind rest k

/-- Go `m[k] = v` on a non-nil map: overwrite the binding of `k` in place, or add one. -/
def mapSet {β : Type} : List (String × β) → String → β → List (String × β)
  | [], k, v => [(k, v)]
  | (k', v') :: rest, k, v =>
    if k' = k then (k, v) :: rest else (k', v') :: mapSet rest k v

/-- A label map, `map[string]string`; `none` is the nil map. -/
abbrev Labels := Option (List (String × String))

/-- Go `m[k]` on a `map[string]string` (nil allowed): the value, or `""` when absent. -/
def labelValue (m : Labels) (k : String) : String :=
  match m with
  | none => ""
  | some kvs => (mapFind kvs k).getD ""

/-- The binding of `k` in a label map, if any (`none` for a nil map). -/
def labelFind (m : Labels) (k : String) : Option String :=
  match m with
  | none => none
  | some kvs => mapFind kvs k

/-! ## API objects -/

/-- Key of a namespaced object, `types.NamespacedName`. -/
structure NamespacedName where
  Namespace : String := ""
  Name : String := ""
deriving DecidableEq, Repr

/-- The part of `corev1.Namespace` the controller reads. -/
structure Namespace where
  Name : String
  Labels : Labels
deriving DecidableEq, Repr

/-- The part of `corev1.Pod` and of `corev1.ConfigMap` the controller reads and writes
(their `ObjectMeta`): both kinds of object are handled by the same code. -/
structure Object where
  Namespace : String
  Name : String
  Labels : Labels
deriving DecidableEq, Repr

/-- The two kinds of object that inherit labels. -/
inductive Kind where
  | pod
  | configMap
deriving DecidableEq, Repr

/-- The `metav1.LabelSelector` of a selector; only `MatchLabels` is read. -/
structure LabelSelector where
  MatchLabels : Labels := none
deriving DecidableEq, Repr

/-- One entry of `InheritorSpec.Selectors`. -/
structure Selector where
  NamespaceSelector : LabelSelector := {}
  IncludeLabels : List String := []
deriving DecidableEq, Repr

/-- The value type of the status map. -/
structure NamespaceStatus where
  Name : String
  LabelsSynced : Bool
deriving DecidableEq, Repr

/-- The spec of the custom resource. -/
structure InheritorSpec where
  Selectors : List Selector := []
deriving DecidableEq, Repr

/-- The status of the custom resource; `Namespaces = none` is the nil map. -/
structure InheritorStatus where
  Namespaces : Option (List (String × NamespaceStatus)) := none
deriving DecidableEq, Repr

/-- The custom resource `labelsv1.Inheritor`; the default value is Go's zero value. -/
structure Inheritor where
  Namespace : String := ""
  Name : String := ""
  Spec : InheritorSpec := {}
  Status : InheritorStatus := {}
deriving DecidableEq, Repr

/-! ## The cluster store and the client -/

/-- Errors a client call can return. -/
inductive APIError where
  | notFound
  | alreadyExists
  /-- The object is rejected by validation (`errors.IsInvalid`), as when `metadata.name` is
  missing. -/
  | invalid
  | failure (reason : String)
deriving DecidableEq, Repr

/-- The client calls the controller makes. -/
inductive Call where
  | getInheritor (key : NamespacedName)
  | createInheritor (obj : Inheritor)
  | listNamespaces (matchLabels : Labels)
  | list (kind : Kind) (nsName : String)
  | update (kind : Kind) (obj : Object)
  | updateStatus (obj : Inheritor)
deriving DecidableEq, Repr

/-- A call together with the error it returned (`none` for success). -/
structure Event where
  call : Call
  err : Option APIError
deriving DecidableEq, Repr

/-- The cluster store seen through the client. -/
structure Cluster where
  inheritors : List Inheritor
  namespaces : List Namespace
  pods : List Object
  configMaps : List Object
  /-- Calls made so far, oldest first. -/
  trace : List Event := []
  /-- Given the calls made so far and the next call: the reason the store refuses it, if it does. -/
  faults : List Event → Call → Option String := fun _ _ => none

/-- Append a call and its outcome to the trace. -/
def Cluster.record (s : Cluster) (c : Call) (e : Option APIError) : Cluster :=
  { s with trace := s.trace ++ [⟨c, e⟩] }

/-- Whether an inheritor is stored under the key. -/
def Inheritor.hasKey (i : Inheritor) (key : NamespacedName) : Bool :=
  decide (i.Namespace = key.Namespace ∧ i.Name = key.Name)

/-- Whether two objects have the same namespace and name. -/
def Object.sameKey (p q : Object) : Bool :=
  decide (p.Namespace = q.Namespace ∧ p.Name = q.Name)

/-- The stored objects of a kind. -/
def Cluster.objects (s : Cluster) : Kind → List Object
  | .pod => s.pods
  | .configMap => s.configMaps

/-- Replace the stored objects of a kind. -/
def Cluster.setObjects (s : Cluster) (kind : Kind) (objs : List Object) : Cluster :=
  match kind with
  | .pod => { s with pods := objs }
  | .configMap => { s with configMaps := objs }

/-- The test `labels.SelectorFromSet(set).Matches(labels)`: every pair of the set is a label of the
object; the nil or empty set matches everything. -/
def selectorMatches (matchLabels : Labels) (objLabels : Labels) : Bool :=
  (matchLabels.getD []).all (fun kv => decide (labelFind objLabels kv.1 = some kv.2))

/-- The call `r.Client.Get(ctx, key, inheritor)`: the stored resource with that key, `notFound`
when there is none. -/
def clientGet (key : NamespacedName) (s : Cluster) : Except APIError Inheritor × Cluster :=
  match s.faults s.trace (.getInheritor key) with
  | some reason => (.error (.failure reason), s.record (.getInheritor key) (some (.failure reason)))
  | none =>
    match s.inheritors.find? (fun i => i.hasKey key) with
    | some obj => (.ok obj, s.record (.getInheritor key) none)
    | none => (.error .notFound, s.record (.getInheritor key) (some .notFound))

/-- The call `r.Client.Create(ctx, inheritor)`: adds the resource. An object without a name is
rejected as `invalid` (`metadata.name` is required; the resource type carries no generated
name), one whose key is taken as `alreadyExists`. -/
def clientCreate (obj : Inheritor) (s : Cluster) : Option APIError × Cluster :=
  match s.faults s.trace (.createInheritor obj) with
  | some reason => (some (.failure reason), s.record (.createInheritor obj) (some (.failure reason)))
  | none =>
    if obj.Name = "" then
      (some .invalid, s.record (.createInheritor obj) (some .invalid))
    else if s.inheritors.any (fun i => i.hasKey ⟨obj.Namespace, obj.Name⟩) then
      (some .alreadyExists, s.record (.createInheritor obj) (some .alreadyExists))
    else
      (none, Cluster.record { s with inheritors := s.inheritors ++ [obj] } (.createInheritor obj) none)

/-- The call `r.Client.Status().Update(ctx, inheritor)`: replaces the stored status only. -/
def clientStatusUpdate (obj : Inheritor) (s : Cluster) : Option APIError × Cluster :=
  match s.faults s.trace (.updateStatus obj) with
  | some reason => (some (.failure reason), s.record (.updateStatus obj) (some (.failure reason)))
  | none =>
    if s.inheritors.any (fun i => i.hasKey ⟨obj.Namespace, obj.Name⟩) then
      (none, Cluster.record { s with inheritors := s.inheritors.map (fun i : Inheritor =>
          if i.hasKey ⟨obj.Namespace, obj.Name⟩ then { i with Status := obj.Status } else i) }
        (.updateStatus obj) none)
    else
      (some .notFound, s.record (.updateStatus obj) (some .notFound))

/-- The call `r.Client.List(ctx, nsList, &client.ListOptions{LabelSelector: sel})`: the stored
namespaces the selector matches, in store order. -/
def clientListNamespaces (matchLabels : Labels) (s : Cluster) :
    Except APIError (List Namespace) × Cluster :=
  match s.faults s.trace (.listNamespaces matchLabels) with
  | some reason =>
    (.error (.failure reason), s.record (.listNamespaces matchLabels) (some (.failure reason)))
  | none =>
    (.ok (s.namespaces.filter (fun ns => selectorMatches matchLabels ns.Labels)),
      s.record (.listNamespaces matchLabels) none)

/-- The call `r.Client.List(ctx, list, &client.ListOptions{Namespace: name})` for a `PodList`
or a `ConfigMapList`: the stored objects of that kind in the namespace, in store order. The name
comes from a listed namespace and is never empty (the API server admits no namespace without a
name), so the reading of an empty `Namespace` option as all namespaces does not arise. -/
def clientList (kind : Kind) (nsName : String) (s : Cluster) :
    Except APIError (List Object) × Cluster :=
  match s.faults s.trace (.list kind nsName) with
  | some reason =>
    (.error (.failure reason), s.record (.list kind nsName) (some (.failure reason)))
  | none =>
    (.ok ((s.objects kind).filter (fun p => decide (p.Namespace = nsName))),
      s.record (.list kind nsName) none)

/-- The call `r.Client.Update(ctx, &obj)` for a pod or a config map: replaces the stored object of the
same namespace and name. -/
def clientUpdate (kind : Kind) (obj : Object) (s : Cluster) : Option APIError × Cluster :=
  match s.faults s.trace (.update kind obj) with
  | some reason => (some (.failure reason), s.record (.update kind obj) (some (.failure reason)))
  | none =>
    if (s.objects kind).any (fun q => q.sameKey obj) then
      (none, Cluster.record (s.setObjects kind ((s.objects kind).map (fun q : Object =>
          if q.sameKey obj then obj else q))) (.update kind obj) none)
    else
      (some .notFound, s.record (.update kind obj) (some .notFound))

/-- The test `errors.IsNotFound(err)`. -/
def IsNotFound (err : APIError) : Bool :=
  match err with
  | .notFound => true
  | _ => false

/-- The function `client.IgnoreNotFound(err)`. -/
def IgnoreNotFound (err : APIError) : Option APIError :=
  if IsNotFound err then none else some err

/-! ## The controller -/

/-- The constant `time.Minute`, in nanoseconds (`time.Duration`). -/
def Minute : Nat := 60 * 1000000000

/-- The type `ctrl.Result`. -/
structure Result where
  RequeueAfter : Nat
deriving DecidableEq, Repr

/-- The inner loop of both synchronizers:
`if x.Labels == nil { x.Labels = make(...) }; for _, label := range includeLabels
{ x.Labels[label] = ns.Labels[label] }`. -/
def inheritLabels (ns : Namespace) (includeLabels : List String) (objLabels : Labels) : Labels :=
  some (includeLabels.foldl (fun m label => mapSet m label (labelValue ns.Labels label))
    (objLabels.getD []))

/-- The loop `for _, pod := range podList.Items` of `syncPodLabels`, which is also the loop
`for _, cm := range cmList.Items` of `syncConfigMapLabels`. -/
def syncLoop (kind : Kind) (ns : Namespace) (includeLabels : List String) :
    List Object → Cluster → Option APIError × Cluster
  | [], s => (none, s)
  | obj :: rest, s =>
    match clientUpdate kind { obj with Labels := inheritLabels ns includeLabels obj.Labels } s with
    | (some err, s1) => (some err, s1)
    | (none, s1) => syncLoop kind ns includeLabels rest s1

/-- The common body of `syncPodLabels` and `syncConfigMapLabels`: list the objects of the
namespace, then run the loop (a nil `Items` is the empty list). -/
def syncLabels (kind : Kind) (ns : Namespace) (includeLabels : List String) (s : Cluster) :
    Option APIError × Cluster :=
  match clientList kind ns.Name s with
  | (.error err, s1) => (some err, s1)
  | (.ok items, s1) => syncLoop kind ns includeLabels items s1

/-- The function `syncPodLabels(ctx, ns, includeLabels)`. -/
def syncPodLabels (ns : Namespace) (includeLabels : List String) (s : Cluster) :
    Option APIError × Cluster :=
  syncLabels .pod ns includeLabels s

/-- The function `syncConfigMapLabels(ctx, ns, includeLabels)`. -/
def syncConfigMapLabels (ns : Namespace) (includeLabels : List String) (s : Cluster) :
    Option APIError × Cluster :=
  syncLabels .configMap ns includeLabels s

/-- What `Reconcile` returns, with the in-memory `inheritor` object and the store at that
moment. -/
structure Outcome where
  result : Result
  err : Option APIError
  inheritor : Inheritor
  cluster : Cluster

/-- How a `for` loop of `Reconcile` ends: by a `return` inside it, or by running out. -/
inductive LoopExit where
  | returned (o : Outcome)
  | finished (inheritor : Inheritor) (cluster : Cluster)

/-- The assignment `inheritor.Status.Namespaces[namespace] = st` (the map is non-nil when this
runs: `Reconcile` initializes a nil map before its loops). -/
def Inheritor.setStatus (inheritor : Inheritor) (nsName : String) (st : NamespaceStatus) :
    Inheritor :=
  { inheritor with
    Status := { Namespaces := some (mapSet (inheritor.Status.Namespaces.getD []) nsName st) } }

/-- The loop `for _, ns := range nsList.Items` of `Reconcile`. -/
def namespaceLoop (selector : Selector) : List Namespace → Inheritor → Cluster → LoopExit
  | [], inheritor, s => .finished inheritor s
  | ns :: rest, inheritor, s =>
    match syncConfigMapLabels ns selector.IncludeLabels s with
    | (some err, s1) =>
      .returned ⟨⟨Minute * 2⟩, some err, inheritor.setStatus ns.Name ⟨ns.Name, false⟩, s1⟩
    | (none, s1) =>
      match syncPodLabels ns selector.IncludeLabels s1 with
      | (some err, s2) =>
        .returned ⟨⟨Minute * 2⟩, some err, inheritor.setStatus ns.Name ⟨ns.Name, false⟩, s2⟩
      | (none, s2) =>
        match clientStatusUpdate (inheritor.setStatus ns.Name ⟨ns.Name, true⟩) s2 with
        | (some err, s3) =>
          .returned ⟨⟨Minute * 2⟩, some err, inheritor.setStatus ns.Name ⟨ns.Name, true⟩, s3⟩
        | (none, s3) =>
          namespaceLoop selector rest (inheritor.setStatus ns.Name ⟨ns.Name, true⟩) s3

/-- The loop `for _, selector := range inheritor.Spec.Selectors` of `Reconcile`. -/
def selectorLoop : List Selector → Inheritor → Cluster → LoopExit
  | [], inheritor, s => .finished inheritor s
  | selector :: rest, inheritor, s =>
    match clientListNamespaces selector.NamespaceSelector.MatchLabels s with
    | (.error err, s1) => .returned ⟨⟨Minute * 2⟩, some err, inheritor, s1⟩
    | (.ok items, s1) =>
      match namespaceLoop selector items inheritor s1 with
      | .returned o => .returned o
      | .finished inheritor1 s2 => selectorLoop rest inheritor1 s2

/-- The part of `Reconcile` from the nil check of the status map on (lines 80 to 135). -/
def reconcileLoaded (inheritor : Inheritor) (s : Cluster) : Outcome :=
  let inheritor1 : Inheritor :=
    if inheritor.Status.Namespaces.isNone then
      { inheritor with Status := { Namespaces := some [] } }
    else inheritor
  match selectorLoop inheritor1.Spec.Selectors inheritor1 s with
  | .returned o => o
  | .finished inheritor2 s1 => ⟨⟨Minute * 2⟩, none, inheritor2, s1⟩

/-- The function `Reconcile(ctx, req)`. -/
def Reconcile (req : NamespacedName) (s : Cluster) : Outcome :=
  match clientGet req s with
  | (.error err, s1) =>
    if IsNotFound err then
      match clientCreate { Status := { Namespaces := some [] } } s1 with
      | (some err1, s2) =>
        ⟨⟨Minute * 2⟩, some err1, { Status := { Namespaces := some [] } }, s2⟩
      | (none, s2) => reconcileLoaded { Status := { Namespaces := some [] } } s2
    else ⟨⟨Minute * 2⟩, IgnoreNotFound err, {}, s1⟩
  | (.ok inheritor, s1) => reconcileLoaded inheritor s1


/-! ## Notions used to state the properties -/

/-- The key of a stored pod or config map. -/
def Object.key (o : Object) : String × String := (o.Namespace, o.Name)

/-- Well-formedness of the store: a namespace is identified by its name, a pod or a config
map by its namespace and name. -/
def Cluster.WellFormed (s : Cluster) : Prop :=
  (s.namespaces.map (fun ns => ns.Name)).Nodup ∧
  (s.pods.map Object.key).Nodup ∧ (s.configMaps.map Object.key).Nodup

instance (s : Cluster) : Decidable s.WellFormed := by
  unfold Cluster.WellFormed
  exact inferInstance

/-- The namespaces a namespace listing returns for a selector. -/
def matchedNamespaces (selector : Selector) (s : Cluster) : List Namespace :=
  s.namespaces.filter (fun ns => selectorMatches selector.NamespaceSelector.MatchLabels ns.Labels)

/-- The calls made by one pass of `Reconcile`, with their outcomes. -/
def passEvents (req : NamespacedName) (s : Cluster) : List Event :=
  (Reconcile req s).cluster.trace.drop s.trace.length

/-- The namespace a pod or config-map call works in. -/
def Call.objectNamespace : Call → Option String
  | .list _ nsName => some nsName
  | .update _ obj => some obj.Namespace
  | _ => none

/-- The kind of object a pod or config-map call works on. -/
def Call.objectKind : Call → Option Kind
  | .list kind _ => some kind
  | .update kind _ => some kind
  | _ => none

/-- An event that does not end a pass: a successful call, or the lookup of the spec resource
answering that there is none. -/
def Event.ok (ev : Event) : Prop :=
  ev.err = none ∨ ∃ key, ev = ⟨.getInheritor key, some .notFound⟩

/-- The events of a run that stops at the first call that fails: with no error returned every
event is ok; with error `e` returned the last event is the call that failed with `e`, and
every event before it is ok. -/
def StopsAtFirstError (T : List Event) (err : Option APIError) : Prop :=
  match err with
  | none => ∀ ev ∈ T, ev.ok
  | some e => ∃ pre c, T = pre ++ [⟨c, some e⟩] ∧ ∀ ev ∈ pre, ev.ok

/-- The object `obj` after the label-copying loop for namespace `ns`. -/
def Object.inherit (ns : LabelInheritance.Namespace) (includeLabels : List String) (obj : Object) : Object :=
  { obj with Labels := inheritLabels ns includeLabels obj.Labels }

/-- How one synchronization of namespace `ns` relates a stored object `q` to the object `q'`
stored in its place afterwards: `q'` is `q`, or the relabelled copy of a stored object of the
namespace with the key of `q`. -/
def Touched (ns : Namespace) (includeLabels : List String) (base : List Object)
    (q q' : Object) : Prop :=
  q ∈ base ∧ q'.key = q.key ∧
    (q' = q ∨ ∃ p ∈ base, p.Namespace = ns.Name ∧ p.key = q.key ∧ q' = p.inherit ns includeLabels)

/-- An object of namespace `ns` is settled for the keys `includeLabels` when its label map is
non-nil and binds each key to the namespace's value for it. -/
def Settled (ns : Namespace) (includeLabels : List String) (obj : Object) : Prop :=
  obj.Namespace = ns.Name →
    obj.Labels.isSome ∧ ∀ k ∈ includeLabels, labelFind obj.Labels k = some (labelValue ns.Labels k)

/-- The store when the loop ends. -/
def LoopExit.cluster : LoopExit → Cluster
  | .returned o => o.cluster
  | .finished _ s => s

/-- The in-memory spec resource when the loop ends. -/
def LoopExit.inheritor : LoopExit → Inheritor
  | .returned o => o.inheritor
  | .finished inheritor _ => inheritor

/-- The error the loop returned with, if it returned. -/
def LoopExit.err : LoopExit → Option APIError
  | .returned o => o.err
  | .finished _ _ => none

/-- The entry of a namespace in the status map of a spec resource. -/
def Inheritor.statusOf (inheritor : Inheritor) (nsName : String) : Option NamespaceStatus :=
  match inheritor.Status.Namespaces with
  | none => none
  | some m => mapFind m nsName

/-- The run ended with a failed list or update of pods or config maps of namespace `nsName`:
it aborted because synchronizing that namespace failed. -/
def AbortedSyncing (T : List Event) (nsName : String) : Prop :=
  ∃ pre c e, T = pre ++ [⟨c, some e⟩] ∧ c.objectNamespace = some nsName

/-- Some pod or config-map call of the run worked in namespace `nsName`. -/
def WorkedIn (T : List Event) (nsName : String) : Prop :=
  ∃ ev ∈ T, ev.call.objectNamespace = some nsName

/-- The status map after a run with events `T`, against the map before it: the namespace whose
synchronization failed is marked not synced; every other namespace that was worked in, or was
marked synced before, is marked synced. -/
def StatusAccurate (before : Inheritor) (T : List Event) (after : Inheritor) : Prop :=
  (∀ n, AbortedSyncing T n → after.statusOf n = some ⟨n, false⟩) ∧
  (∀ m, (WorkedIn T m ∨ before.statusOf m = some ⟨m, true⟩) → ¬ AbortedSyncing T m →
    after.statusOf m = some ⟨m, true⟩)

/-- The selectors a pass of `Reconcile` for `req` works with: those of the spec resource stored
under `req`, none when no resource is stored there. -/
def passSelectors (req : NamespacedName) (s : Cluster) : List Selector :=
  match s.inheritors.find? (fun i => i.hasKey req) with
  | some inheritor => inheritor.Spec.Selectors
  | none => []

/-- How a pass may change a stored object, given the selectors it works with: the object keeps
its namespace and name, every label whose key no selector includes is as before (neither
changed, removed nor added), and no label key is lost. -/
def KeepsLabels (selectors : List Selector) (q q' : Object) : Prop :=
  q'.Namespace = q.Namespace ∧ q'.Name = q.Name ∧
  (∀ k, (∀ sel ∈ selectors, k ∉ sel.IncludeLabels) →
    labelFind q'.Labels k = labelFind q.Labels k) ∧
  (∀ k, (labelFind q.Labels k).isSome → (labelFind q'.Labels k).isSome)

/-- How a pass may change a stored object, given the names of the namespaces it works in: the
object keeps its key, and is left exactly as it was when it lies in none of them. -/
def ConfinedTo (nsNames : List String) (q q' : Object) : Prop :=
  q'.key = q.key ∧ (q.Namespace ∉ nsNames → q' = q)

/-- The names of the namespaces the namespace listings of a pass return; a name may repeat. -/
def passNamespaces (req : NamespacedName) (s : Cluster) : List String :=
  (passSelectors req s).flatMap (fun sel => (matchedNamespaces sel s).map (fun ns => ns.Name))

/-! ## Example stores -/

/-- The namespace of the test suite: `default`, labelled `app=new-label`. -/
def demoNamespace : Namespace :=
  ⟨"default", some [("kubernetes.io/metadata.name", "default"), ("app", "new-label")]⟩

/-- A namespace no selector of the example matches. -/
def otherNamespace : Namespace :=
  ⟨"kube-system", some [("kubernetes.io/metadata.name", "kube-system"), ("app", "system")]⟩

/-- The selector of the test suite: the namespace `default`, the label `app`. -/
def demoSelector : Selector :=
  { NamespaceSelector := { MatchLabels := some [("kubernetes.io/metadata.name", "default")] },
    IncludeLabels := ["app"] }

/-- Its spec resource, as the test suite creates it. -/
def demoInheritor : Inheritor :=
  { Namespace := "default", Name := "test-inheritor", Spec := { Selectors := [demoSelector] } }

/-- The request for the spec resource of the example. -/
def demoKey : NamespacedName := ⟨"default", "test-inheritor"⟩

/-- A store with three pods and a config map in `default` and a pod elsewhere. -/
def demoCluster : Cluster :=
  { inheritors := [demoInheritor]
    namespaces := [demoNamespace, otherNamespace]
    pods := [⟨"default", "p1", some [("foo", "bar")]⟩,
      ⟨"default", "p2", some [("app", "old-label")]⟩,
      ⟨"default", "p3", none⟩,
      ⟨"kube-system", "dns", some [("app", "dns")]⟩]
    configMaps := [⟨"default", "c1", some [("owner", "team")]⟩] }

/-- The same store, refusing every update of the pod `p2`. -/
def conflictCluster : Cluster :=
  { demoCluster with
    faults := fun _ c =>
      match c with
      | .update .pod obj => if obj.Name = "p2" then some "conflict" else none
      | _ => none }

/-- A store without any spec resource. -/
def bareCluster : Cluster :=
  { inheritors := [], namespaces := [demoNamespace], pods := [⟨"default", "p1", none⟩],
    configMaps := [] }

/-- What identifies a stored spec resource and what a pass reads of it. -/
def Inheritor.identity (i : Inheritor) : String × String × InheritorSpec :=
  (i.Namespace, i.Name, i.Spec)

/-- A selector matching every namespace labelled `team=a`. -/
def teamSelector : Selector :=
  { NamespaceSelector := { MatchLabels := some [("team", "a")] }, IncludeLabels := ["team"] }

/-- A store with two matched namespaces, `alpha` and `beta`, refusing to list the config maps
of `beta`. -/
def splitCluster : Cluster :=
  { inheritors := [{ demoInheritor with Spec := { Selectors := [teamSelector] } }]
    namespaces := [⟨"alpha", some [("team", "a")]⟩, ⟨"beta", some [("team", "a")]⟩]
    pods := [⟨"alpha", "p1", none⟩, ⟨"beta", "p2", none⟩]
    configMaps := [⟨"alpha", "c1", none⟩, ⟨"beta", "c2", none⟩]
    faults := fun _ c =>
      match c with
      | .list .configMap nsName => if nsName = "beta" then some "unavailable" else none
      | _ => none }

/-- The store of the example with a spec resource of two selectors that both match `default`,
refusing to list the config maps of a namespace a second time. -/
def repeatCluster : Cluster :=
  { demoCluster with
    inheritors := [{ demoInheritor with Spec := { Selectors := [demoSelector, demoSelector] } }]
    faults := fun T c =>
      match c with
      | .list .configMap nsName =>
        if T.any (fun ev => decide (ev.call = .list .configMap nsName)) then some "unavailable"
        else none
      | _ => none }

/-- The store of the example, refusing every update of a config map. -/
def readOnlyConfigMaps : Cluster :=
  { demoCluster with
    faults := fun _ c =>
      match c with
      | .update .configMap _ => some "conflict"
      | _ => none }

/-- The events of successful updates of the objects `objs`, relabelled, in order. -/
def updatedEvents (kind : Kind) (ns : LabelInheritance.Namespace) (includeLabels : List String)
    (objs : List Object) : List Event :=
  objs.map (fun x => ⟨.update kind (x.inherit ns includeLabels), none⟩)


/-! ## Go maps: reading after writing -/

theorem mapFind_mapSet_self {β : Type} (m : List (String × β)) (k : String) (v : β) :
    mapFind (mapSet m k v) k = some v := by
  induction m with
  | nil => simp [mapSet, mapFind]
  | cons kv rest ih =>
    obtain ⟨k', v'⟩ := kv
    by_cases h : k' = k
    · simp [mapSet, mapFind, h]
    · simp [mapSet, mapFind, h, ih]

theorem mapFind_mapSet_ne {β : Type} (m : List (String × β)) (k k' : String) (v : β)
    (h : k ≠ k') : mapFind (mapSet m k v) k' = mapFind m k' := by
  induction m with
  | nil => simp [mapSet, mapFind, h]
  | cons kv rest ih =>
    obtain ⟨k₁, v₁⟩ := kv
    by_cases h₁ : k₁ = k
    · subst h₁
      simp [mapSet, mapFind, h]
    · simp [mapSet, mapFind, h₁, ih]

theorem mapSet_eq_self {β : Type} (m : List (String × β)) (k : String) (v : β)
    (h : mapFind m k = some v) : mapSet m k v = m := by
  induction m with
  | nil => simp [mapFind] at h
  | cons kv rest ih =>
    obtain ⟨k₁, v₁⟩ := kv
    by_cases h₁ : k₁ = k
    · subst h₁
      simp [mapFind] at h
      simp [mapSet, h]
    · simp [mapFind, h₁] at h
      simp [mapSet, h₁, ih h]

/-- Reading a key after the label-copying loop: keys of the loop carry the copied value,
all other keys are as before. -/
theorem mapFind_foldl_mapSet (f : String → String) (incl : List String)
    (m : List (String × String)) (k : String) :
    mapFind (incl.foldl (fun m label => mapSet m label (f label)) m) k
      = if k ∈ incl then some (f k) else mapFind m k := by
  induction incl generalizing m with
  | nil => simp
  | cons l rest ih =>
    rw [List.foldl_cons, ih]
    by_cases hk : k ∈ rest
    · simp [hk]
    · by_cases hl : l = k
      · subst hl
        simp [hk, mapFind_mapSet_self]
      · have hkl : ¬ k = l := fun h => hl h.symm
        simp [hk, hkl, mapFind_mapSet_ne _ _ _ _ hl]

/-- The label-copying loop changes nothing when every key already carries its value. -/
theorem foldl_mapSet_eq_self (f : String → String) (incl : List String)
    (m : List (String × String)) (h : ∀ k ∈ incl, mapFind m k = some (f k)) :
    incl.foldl (fun m label => mapSet m label (f label)) m = m := by
  induction incl generalizing m with
  | nil => simp
  | cons l rest ih =>
    rw [List.foldl_cons, mapSet_eq_self m l (f l) (h l (by simp))]
    exact ih m (fun k hk => h k (by simp [hk]))

theorem labelFind_inheritLabels (ns : Namespace) (incl : List String) (ls : Labels)
    (k : String) :
    labelFind (inheritLabels ns incl ls) k
      = if k ∈ incl then some (labelValue ns.Labels k) else labelFind ls k := by
  unfold inheritLabels
  simp only [labelFind]
  rw [mapFind_foldl_mapSet (fun l => labelValue ns.Labels l)]
  cases ls <;> simp [labelFind, mapFind]

/-- An object is settled for a namespace and a list of keys when its label map is non-nil
and carries, for each key, the namespace's value. -/
theorem inheritLabels_eq_self (ns : Namespace) (incl : List String) (ls : Labels)
    (hsome : ls.isSome) (h : ∀ k ∈ incl, labelFind ls k = some (labelValue ns.Labels k)) :
    inheritLabels ns incl ls = ls := by
  cases ls with
  | none => simp at hsome
  | some m =>
    unfold inheritLabels
    simp only [Option.getD_some]
    rw [foldl_mapSet_eq_self (fun l => labelValue ns.Labels l) incl m (by simpa [labelFind] using h)]

theorem inheritLabels_isSome (ns : Namespace) (incl : List String) (ls : Labels) :
    (inheritLabels ns incl ls).isSome := by
  simp [inheritLabels]

/-! ## The client calls, one field at a time -/

theorem sameKey_iff (p q : Object) : p.sameKey q = true ↔ p.key = q.key := by
  simp [Object.sameKey, Object.key, Prod.ext_iff]

@[simp] theorem record_faults (s : Cluster) (c : Call) (e : Option APIError) :
    (s.record c e).faults = s.faults := rfl

@[simp] theorem record_namespaces (s : Cluster) (c : Call) (e : Option APIError) :
    (s.record c e).namespaces = s.namespaces := rfl

@[simp] theorem record_inheritors (s : Cluster) (c : Call) (e : Option APIError) :
    (s.record c e).inheritors = s.inheritors := rfl

@[simp] theorem record_objects (s : Cluster) (c : Call) (e : Option APIError) (kind : Kind) :
    (s.record c e).objects kind = s.objects kind := by
  cases kind <;> rfl

@[simp] theorem record_trace (s : Cluster) (c : Call) (e : Option APIError) :
    (s.record c e).trace = s.trace ++ [⟨c, e⟩] := rfl

@[simp] theorem setObjects_faults (s : Cluster) (kind : Kind) (l : List Object) :
    (s.setObjects kind l).faults = s.faults := by
  cases kind <;> rfl

@[simp] theorem setObjects_namespaces (s : Cluster) (kind : Kind) (l : List Object) :
    (s.setObjects kind l).namespaces = s.namespaces := by
  cases kind <;> rfl

@[simp] theorem setObjects_inheritors (s : Cluster) (kind : Kind) (l : List Object) :
    (s.setObjects kind l).inheritors = s.inheritors := by
  cases kind <;> rfl

@[simp] theorem setObjects_trace (s : Cluster) (kind : Kind) (l : List Object) :
    (s.setObjects kind l).trace = s.trace := by
  cases kind <;> rfl

@[simp] theorem setObjects_objects_same (s : Cluster) (kind : Kind) (l : List Object) :
    (s.setObjects kind l).objects kind = l := by
  cases kind <;> rfl

theorem setObjects_objects_other (s : Cluster) (kind kind' : Kind) (l : List Object)
    (h : kind' ≠ kind) : (s.setObjects kind l).objects kind' = s.objects kind' := by
  cases kind <;> cases kind' <;> first | rfl | exact absurd rfl h

/-- What an update of a pod or config map does to the store. -/
theorem clientUpdate_spec (kind : Kind) (obj : Object) (s : Cluster) :
    (clientUpdate kind obj s).2.faults = s.faults ∧
    (clientUpdate kind obj s).2.namespaces = s.namespaces ∧
    (clientUpdate kind obj s).2.inheritors = s.inheritors ∧
    (clientUpdate kind obj s).2.trace = s.trace ++ [⟨.update kind obj, (clientUpdate kind obj s).1⟩] ∧
    (∀ kind', kind' ≠ kind → (clientUpdate kind obj s).2.objects kind' = s.objects kind') ∧
    (clientUpdate kind obj s).2.objects kind
      = (if (clientUpdate kind obj s).1 = none then
          (s.objects kind).map (fun q : Object => if q.sameKey obj then obj else q)
        else s.objects kind) := by
  unfold clientUpdate
  cases hf : s.faults s.trace (.update kind obj) with
  | some reason => simp
  | none =>
    by_cases hany : (s.objects kind).any (fun q => q.sameKey obj) = true
    · simp only [hany, if_true]
      refine ⟨by simp, by simp, by simp, by simp, ?_, by simp⟩
      intro kind' hk
      simp [setObjects_objects_other _ _ _ _ hk]
    · simp only [hany]
      simp

/-- A successful update is refused neither by the store nor for want of the object. -/
theorem clientUpdate_eq_none_iff (kind : Kind) (obj : Object) (s : Cluster) :
    (clientUpdate kind obj s).1 = none ↔
      s.faults s.trace (.update kind obj) = none ∧ ∃ q ∈ s.objects kind, q.sameKey obj = true := by
  unfold clientUpdate
  cases hf : s.faults s.trace (.update kind obj) with
  | some reason => simp
  | none =>
    by_cases hany : (s.objects kind).any (fun q => q.sameKey obj) = true
    · simp only [hany, if_true]
      simpa using hany
    · simp only [hany]
      simpa using hany

theorem clientUpdate_fault (kind : Kind) (obj : Object) (s : Cluster) (reason : String)
    (h : s.faults s.trace (.update kind obj) = some reason) :
    clientUpdate kind obj s
      = (some (.failure reason), s.record (.update kind obj) (some (.failure reason))) := by
  simp [clientUpdate, h]

/-- What a listing of pods or config maps does to the store. -/
theorem clientList_spec (kind : Kind) (nsName : String) (s : Cluster) :
    (clientList kind nsName s).2.faults = s.faults ∧
    (clientList kind nsName s).2.namespaces = s.namespaces ∧
    (clientList kind nsName s).2.inheritors = s.inheritors ∧
    (∀ kind', (clientList kind nsName s).2.objects kind' = s.objects kind') ∧
    (clientList kind nsName s).2.trace = s.trace ++ [⟨.list kind nsName,
      match (clientList kind nsName s).1 with
      | .error e => some e
      | .ok _ => none⟩] ∧
    (∀ items, (clientList kind nsName s).1 = .ok items →
      s.faults s.trace (.list kind nsName) = none ∧
      items = (s.objects kind).filter (fun p => decide (p.Namespace = nsName))) := by
  unfold clientList
  cases hf : s.faults s.trace (.list kind nsName) with
  | some reason => simp
  | none => simp

theorem clientListNamespaces_spec (ml : Labels) (s : Cluster) :
    (clientListNamespaces ml s).2.faults = s.faults ∧
    (clientListNamespaces ml s).2.namespaces = s.namespaces ∧
    (clientListNamespaces ml s).2.inheritors = s.inheritors ∧
    (∀ kind', (clientListNamespaces ml s).2.objects kind' = s.objects kind') ∧
    (clientListNamespaces ml s).2.trace = s.trace ++ [⟨.listNamespaces ml,
      match (clientListNamespaces ml s).1 with
      | .error e => some e
      | .ok _ => none⟩] ∧
    (∀ items, (clientListNamespaces ml s).1 = .ok items →
      items = s.namespaces.filter (fun ns => selectorMatches ml ns.Labels)) := by
  unfold clientListNamespaces
  cases hf : s.faults s.trace (.listNamespaces ml) with
  | some reason => simp
  | none => simp

theorem clientStatusUpdate_spec (obj : Inheritor) (s : Cluster) :
    (clientStatusUpdate obj s).2.faults = s.faults ∧
    (clientStatusUpdate obj s).2.namespaces = s.namespaces ∧
    (∀ kind', (clientStatusUpdate obj s).2.objects kind' = s.objects kind') ∧
    (clientStatusUpdate obj s).2.trace
      = s.trace ++ [⟨.updateStatus obj, (clientStatusUpdate obj s).1⟩] := by
  unfold clientStatusUpdate
  cases hf : s.faults s.trace (.updateStatus obj) with
  | some reason => simp
  | none =>
    by_cases hany : s.inheritors.any (fun i => i.hasKey ⟨obj.Namespace, obj.Name⟩) = true
    · simp only [hany, if_true]
      refine ⟨rfl, rfl, ?_, rfl⟩
      intro kind'
      cases kind' <;> rfl
    · simp only [hany]
      simp

/-! ## One synchronization of one namespace -/

theorem inherit_key (ns : Namespace) (incl : List String) (p : Object) :
    (p.inherit ns incl).key = p.key := rfl

theorem inherit_namespace (ns : Namespace) (incl : List String) (p : Object) :
    (p.inherit ns incl).Namespace = p.Namespace := rfl

theorem syncLoop_cons (kind : Kind) (ns : Namespace) (incl : List String) (obj : Object)
    (rest : List Object) (s : Cluster) :
    syncLoop kind ns incl (obj :: rest) s
      = match clientUpdate kind (obj.inherit ns incl) s with
        | (some err, s1) => (some err, s1)
        | (none, s1) => syncLoop kind ns incl rest s1 := rfl

/-- The loop leaves alone everything but the objects of its kind. -/
theorem syncLoop_frame (kind : Kind) (ns : Namespace) (incl : List String)
    (items : List Object) (s : Cluster) :
    (syncLoop kind ns incl items s).2.faults = s.faults ∧
    (syncLoop kind ns incl items s).2.namespaces = s.namespaces ∧
    (syncLoop kind ns incl items s).2.inheritors = s.inheritors ∧
    (∀ kind', kind' ≠ kind → (syncLoop kind ns incl items s).2.objects kind' = s.objects kind') := by
  induction items generalizing s with
  | nil => simp [syncLoop]
  | cons obj rest ih =>
    rw [syncLoop_cons]
    obtain ⟨h1, h2, h3, _, h5, _⟩ := clientUpdate_spec kind (obj.inherit ns incl) s
    rcases hu : clientUpdate kind (obj.inherit ns incl) s with ⟨_ | err, s1⟩
    · rw [hu] at h1 h2 h3 h5
      simp only at h1 h2 h3 h5 ⊢
      obtain ⟨i1, i2, i3, i4⟩ := ih s1
      refine ⟨i1.trans h1, i2.trans h2, i3.trans h3, ?_⟩
      intro kind' hk
      rw [i4 kind' hk, h5 kind' hk]
    · rw [hu] at h1 h2 h3 h5
      exact ⟨h1, h2, h3, h5⟩

theorem syncLabels_frame (kind : Kind) (ns : Namespace) (incl : List String) (s : Cluster) :
    (syncLabels kind ns incl s).2.faults = s.faults ∧
    (syncLabels kind ns incl s).2.namespaces = s.namespaces ∧
    (syncLabels kind ns incl s).2.inheritors = s.inheritors ∧
    (∀ kind', kind' ≠ kind → (syncLabels kind ns incl s).2.objects kind' = s.objects kind') := by
  unfold syncLabels
  obtain ⟨h1, h2, h3, h4, _, _⟩ := clientList_spec kind ns.Name s
  rcases hl : clientList kind ns.Name s with ⟨err | items, s1⟩
  · rw [hl] at h1 h2 h3 h4
    exact ⟨h1, h2, h3, fun k _ => h4 k⟩
  · rw [hl] at h1 h2 h3 h4
    simp only at h1 h2 h3 h4 ⊢
    obtain ⟨i1, i2, i3, i4⟩ := syncLoop_frame kind ns incl items s1
    refine ⟨i1.trans h1, i2.trans h2, i3.trans h3, ?_⟩
    intro kind' hk
    rw [i4 kind' hk, h4 kind']

/-- Each stored object is, after the loop, itself or the relabelled copy of a listed object
with its key. -/
theorem syncLoop_touched (kind : Kind) (ns : Namespace) (incl : List String)
    (base items : List Object) (s : Cluster)
    (hitems : ∀ p ∈ items, p ∈ base ∧ p.Namespace = ns.Name)
    (hcur : List.Forall₂ (Touched ns incl base) base (s.objects kind)) :
    List.Forall₂ (Touched ns incl base) base ((syncLoop kind ns incl items s).2.objects kind) := by
  induction items generalizing s with
  | nil => simpa [syncLoop] using hcur
  | cons obj rest ih =>
    rw [syncLoop_cons]
    obtain ⟨_, _, _, _, _, h6⟩ := clientUpdate_spec kind (obj.inherit ns incl) s
    rcases hu : clientUpdate kind (obj.inherit ns incl) s with ⟨_ | err, s1⟩
    · rw [hu] at h6
      simp only [if_true] at h6 ⊢
      apply ih s1 (fun p hp => hitems p (by simp [hp]))
      rw [h6, List.forall₂_map_right_iff]
      refine hcur.imp ?_
      intro q q' hq
      obtain ⟨hqb, hkey, hq'⟩ := hq
      by_cases hs : q'.sameKey (obj.inherit ns incl) = true
      · simp only [hs, if_true]
        have hk : q'.key = obj.key := by
          rw [sameKey_iff] at hs
          exact hs
        refine ⟨hqb, ?_, Or.inr ⟨obj, (hitems obj (by simp)).1, (hitems obj (by simp)).2, ?_, rfl⟩⟩
        · rw [inherit_key, ← hk, hkey]
        · rw [← hk, hkey]
      · simp only [hs]
        exact ⟨hqb, hkey, hq'⟩
    · rw [hu] at h6
      simp only at h6 ⊢
      rw [h6]
      simpa using hcur

theorem touched_refl (ns : Namespace) (incl : List String) (base : List Object) :
    List.Forall₂ (Touched ns incl base) base base := by
  rw [List.forall₂_same]
  intro q hq
  exact ⟨hq, rfl, Or.inl rfl⟩

theorem syncLabels_touched (kind : Kind) (ns : Namespace) (incl : List String) (s : Cluster) :
    List.Forall₂ (Touched ns incl (s.objects kind)) (s.objects kind)
      ((syncLabels kind ns incl s).2.objects kind) := by
  unfold syncLabels
  obtain ⟨_, _, _, h4, _, h6⟩ := clientList_spec kind ns.Name s
  rcases hl : clientList kind ns.Name s with ⟨err | items, s1⟩
  · rw [hl] at h4
    simp only at h4 ⊢
    rw [h4 kind]
    exact touched_refl ns incl _
  · rw [hl] at h4 h6
    simp only at h4 h6 ⊢
    obtain ⟨_, hitems⟩ := h6 items rfl
    apply syncLoop_touched
    · intro p hp
      rw [hitems] at hp
      simpa using hp
    · rw [h4 kind]
      exact touched_refl ns incl _

theorem forall2_map_eq {α β : Type} {R : α → α → Prop} (f : α → β)
    (hR : ∀ a b, R a b → f b = f a) {l l' : List α} (h : List.Forall₂ R l l') :
    l'.map f = l.map f := by
  induction h with
  | nil => rfl
  | cons hab _ ih => simp only [List.map_cons, ih, hR _ _ hab]

/-- A synchronization neither adds nor removes nor reorders stored objects. -/
theorem syncLabels_keys (kind : Kind) (ns : Namespace) (incl : List String) (s : Cluster) :
    ((syncLabels kind ns incl s).2.objects kind).map Object.key
      = (s.objects kind).map Object.key :=
  forall2_map_eq Object.key (fun _ _ h => h.2.1) (syncLabels_touched kind ns incl s)

/-! ## Runs that stop at the first failing call -/

theorem stops_nil : StopsAtFirstError [] none := by
  simp [StopsAtFirstError]

theorem stops_none {T : List Event} (h : StopsAtFirstError T none) : ∀ ev ∈ T, ev.ok := h

theorem stops_single_ok (ev : Event) (h : ev.ok) : StopsAtFirstError [ev] none := by
  simpa [StopsAtFirstError] using h

theorem stops_single_err (c : Call) (e : APIError) : StopsAtFirstError [⟨c, some e⟩] (some e) :=
  ⟨[], c, by simp, by simp⟩

theorem stops_single (c : Call) (err : Option APIError) : StopsAtFirstError [⟨c, err⟩] err := by
  cases err with
  | none => exact stops_single_ok _ (Or.inl rfl)
  | some e => exact stops_single_err c e

theorem stops_append {T₁ T₂ : List Event} {err : Option APIError}
    (h₁ : StopsAtFirstError T₁ none) (h₂ : StopsAtFirstError T₂ err) :
    StopsAtFirstError (T₁ ++ T₂) err := by
  cases err with
  | none =>
    intro ev hev
    rcases List.mem_append.1 hev with h | h
    · exact h₁ ev h
    · exact h₂ ev h
  | some e =>
    obtain ⟨pre, c, hT, hpre⟩ := h₂
    refine ⟨T₁ ++ pre, c, by simp [hT], ?_⟩
    intro ev hev
    rcases List.mem_append.1 hev with h | h
    · exact h₁ ev h
    · exact hpre ev h

/-- In a run that stops at the first failing call, a call that failed (other than the lookup of
an absent spec resource) is the last call, and its error is the one returned. -/
theorem stops_failed_last {T : List Event} {err : Option APIError}
    (h : StopsAtFirstError T err) (pre post : List Event) (ev : Event) (e : APIError)
    (hT : T = pre ++ ev :: post) (hev : ev.err = some e)
    (hget : ∀ key, ev.call ≠ .getInheritor key) : post = [] ∧ err = some e := by
  have hnok : ¬ ev.ok := by
    rintro (h0 | ⟨key, hk⟩)
    · rw [hev] at h0
      exact Option.noConfusion h0
    · exact hget key (by rw [hk])
  cases err with
  | none => exact absurd (h ev (by simp [hT])) hnok
  | some e' =>
    obtain ⟨pre', c, hT', hpre'⟩ := h
    rw [hT] at hT'
    have hsplit : pre ++ ev :: post = (pre ++ [ev]) ++ post := by simp
    rcases List.eq_nil_or_concat post with hp | ⟨init, last, hp⟩
    · subst hp
      have := List.append_inj_right' hT' (by simp)
      simp only [List.cons.injEq, and_true] at this
      subst this
      simp only at hev
      exact ⟨rfl, hev⟩
    · exfalso
      subst hp
      have h2 : (pre ++ ev :: init) ++ [last] = pre' ++ [⟨c, some e'⟩] := by
        simpa using hT'
      have h3 := List.append_inj_left' h2 (by simp)
      exact hnok (hpre' ev (by rw [← h3]; simp))

theorem forall2_mem_right {α : Type} {R : α → α → Prop} {l l' : List α}
    (h : List.Forall₂ R l l') : ∀ b ∈ l', ∃ a ∈ l, R a b := by
  induction h with
  | nil => simp
  | cons hab _ ih =>
    intro b hb
    rcases List.mem_cons.1 hb with rfl | hb
    · exact ⟨_, by simp, hab⟩
    · obtain ⟨a, ha, hr⟩ := ih b hb
      exact ⟨a, by simp [ha], hr⟩

/-- The calls of the loop: updates of relabelled listed objects, stopping at the first that
fails. -/
theorem syncLoop_trace (kind : Kind) (ns : Namespace) (incl : List String)
    (items : List Object) (s : Cluster) :
    ∃ T, (syncLoop kind ns incl items s).2.trace = s.trace ++ T ∧
      StopsAtFirstError T (syncLoop kind ns incl items s).1 ∧
      ∀ ev ∈ T, ∃ p ∈ items, ev.call = .update kind (p.inherit ns incl) := by
  induction items generalizing s with
  | nil => exact ⟨[], by simp [syncLoop], by simpa [syncLoop] using stops_nil, by simp⟩
  | cons obj rest ih =>
    rw [syncLoop_cons]
    obtain ⟨_, _, _, h4, _, _⟩ := clientUpdate_spec kind (obj.inherit ns incl) s
    rcases hu : clientUpdate kind (obj.inherit ns incl) s with ⟨_ | err, s1⟩
    · rw [hu] at h4
      simp only at h4 ⊢
      obtain ⟨T, hT, hstop, hcalls⟩ := ih s1
      refine ⟨⟨.update kind (obj.inherit ns incl), none⟩ :: T, ?_, ?_, ?_⟩
      · rw [hT, h4]
        simp
      · exact stops_append (stops_single_ok _ (Or.inl rfl)) hstop
      · intro ev hev
        rcases List.mem_cons.1 hev with rfl | hev
        · exact ⟨obj, by simp, rfl⟩
        · obtain ⟨p, hp, hc⟩ := hcalls ev hev
          exact ⟨p, by simp [hp], hc⟩
    · rw [hu] at h4
      simp only at h4 ⊢
      refine ⟨[⟨.update kind (obj.inherit ns incl), some err⟩], h4, stops_single_err _ _, ?_⟩
      intro ev hev
      simp only [List.mem_singleton] at hev
      subst hev
      exact ⟨obj, by simp, rfl⟩

/-- The calls of one synchronization: they begin with the listing, all work on the given kind
in the given namespace, and they stop at the first call that fails. -/
theorem syncLabels_trace (kind : Kind) (ns : Namespace) (incl : List String) (s : Cluster) :
    ∃ e T, (syncLabels kind ns incl s).2.trace = s.trace ++ ⟨.list kind ns.Name, e⟩ :: T ∧
      StopsAtFirstError (⟨.list kind ns.Name, e⟩ :: T) (syncLabels kind ns incl s).1 ∧
      ∀ ev ∈ T, ∃ obj, ev.call = .update kind obj ∧ obj.Namespace = ns.Name := by
  unfold syncLabels
  obtain ⟨_, _, _, _, h5, h6⟩ := clientList_spec kind ns.Name s
  rcases hl : clientList kind ns.Name s with ⟨err | items, s1⟩
  · rw [hl] at h5
    simp only at h5 ⊢
    exact ⟨some err, [], h5, stops_single_err _ _, by simp⟩
  · rw [hl] at h5 h6
    simp only at h5 h6 ⊢
    obtain ⟨_, hitems⟩ := h6 items rfl
    obtain ⟨T, hT, hstop, hcalls⟩ := syncLoop_trace kind ns incl items s1
    refine ⟨none, T, ?_, ?_, ?_⟩
    · rw [hT, h5]
      simp
    · have h0 : StopsAtFirstError [(⟨.list kind ns.Name, none⟩ : Event)] none :=
        stops_single_ok _ (Or.inl rfl)
      exact stops_append h0 hstop
    · intro ev hev
      obtain ⟨p, hp, hc⟩ := hcalls ev hev
      refine ⟨_, hc, ?_⟩
      rw [hitems] at hp
      simpa [inherit_namespace] using (List.mem_filter.1 hp).2

/-! ## Settled objects -/

theorem settled_inherit_self (ns : Namespace) (incl : List String) (p : Object) :
    Settled ns incl (p.inherit ns incl) := by
  intro _
  refine ⟨inheritLabels_isSome ns incl p.Labels, ?_⟩
  intro k hk
  show labelFind (inheritLabels ns incl p.Labels) k = _
  rw [labelFind_inheritLabels]
  simp [hk]

theorem settled_inherit_other (ns : Namespace) (incl incl' : List String) (p : Object)
    (h : Settled ns incl p) : Settled ns incl (p.inherit ns incl') := by
  intro hns
  refine ⟨inheritLabels_isSome ns incl' p.Labels, ?_⟩
  intro k hk
  show labelFind (inheritLabels ns incl' p.Labels) k = _
  rw [labelFind_inheritLabels]
  by_cases hk' : k ∈ incl'
  · simp [hk']
  · simp only [hk', if_false]
    exact (h hns).2 k hk

/-- A settled object is a fixed point of the label-copying loop. -/
theorem settled_inherit_eq (ns : Namespace) (incl : List String) (p : Object)
    (hns : p.Namespace = ns.Name) (h : Settled ns incl p) : p.inherit ns incl = p := by
  obtain ⟨h1, h2⟩ := h hns
  unfold Object.inherit
  rw [inheritLabels_eq_self ns incl p.Labels h1 h2]

theorem syncLoop_settled (kind : Kind) (ns : Namespace) (incl : List String)
    (items : List Object) (s : Cluster)
    (hok : (syncLoop kind ns incl items s).1 = none)
    (hcur : ∀ q ∈ s.objects kind, Settled ns incl q ∨ ∃ p ∈ items, p.key = q.key) :
    ∀ q ∈ (syncLoop kind ns incl items s).2.objects kind, Settled ns incl q := by
  induction items generalizing s with
  | nil =>
    intro q hq
    rcases hcur q (by simpa [syncLoop] using hq) with h | ⟨p, hp, _⟩
    · exact h
    · simp at hp
  | cons obj rest ih =>
    rw [syncLoop_cons] at hok ⊢
    obtain ⟨_, _, _, _, _, h6⟩ := clientUpdate_spec kind (obj.inherit ns incl) s
    rcases hu : clientUpdate kind (obj.inherit ns incl) s with ⟨_ | err, s1⟩
    · rw [hu] at h6 hok
      simp only [if_true] at h6 hok ⊢
      apply ih s1 hok
      intro q' hq'
      rw [h6] at hq'
      obtain ⟨q, hq, rfl⟩ := List.mem_map.1 hq'
      by_cases hs : q.sameKey (obj.inherit ns incl) = true
      · simp only [hs, if_true]
        exact Or.inl (settled_inherit_self ns incl obj)
      · simp only [hs]
        rcases hcur q hq with h | ⟨p, hp, hk⟩
        · exact Or.inl h
        · rcases List.mem_cons.1 hp with rfl | hp
          · exfalso
            apply hs
            rw [sameKey_iff, inherit_key, hk]
          · exact Or.inr ⟨p, hp, hk⟩
    · rw [hu] at hok
      simp at hok

/-- After a synchronization that succeeded, every stored object of the namespace is settled. -/
theorem syncLabels_settled (kind : Kind) (ns : Namespace) (incl : List String) (s : Cluster)
    (hok : (syncLabels kind ns incl s).1 = none) :
    ∀ q ∈ (syncLabels kind ns incl s).2.objects kind, Settled ns incl q := by
  unfold syncLabels at hok ⊢
  obtain ⟨_, _, _, h4, _, h6⟩ := clientList_spec kind ns.Name s
  rcases hl : clientList kind ns.Name s with ⟨err | items, s1⟩
  · rw [hl] at hok
    simp at hok
  · rw [hl] at h4 h6 hok
    simp only at h4 h6 hok ⊢
    obtain ⟨_, hitems⟩ := h6 items rfl
    apply syncLoop_settled kind ns incl items s1 hok
    intro q hq
    rw [h4 kind] at hq
    by_cases hns : q.Namespace = ns.Name
    · exact Or.inr ⟨q, by rw [hitems]; simp [hq, hns], rfl⟩
    · exact Or.inl (fun h => absurd h hns)

/-- A synchronization of any namespace keeps settled objects settled, provided a namespace is
identified by its name. -/
theorem syncLabels_keeps_settled (kind kind' : Kind) (ns ns' : Namespace)
    (incl incl' : List String) (s : Cluster) (hname : ns'.Name = ns.Name → ns' = ns)
    (hcur : ∀ q ∈ s.objects kind, Settled ns incl q) :
    ∀ q ∈ (syncLabels kind' ns' incl' s).2.objects kind, Settled ns incl q := by
  by_cases hk : kind = kind'
  · subst hk
    intro q' hq'
    obtain ⟨q, hq, _, _, hq2⟩ := forall2_mem_right (syncLabels_touched kind ns' incl' s) q' hq'
    rcases hq2 with rfl | ⟨p, hp, hpns, _, rfl⟩
    · exact hcur _ hq
    · intro hns
      have : ns' = ns := hname (by rw [← hpns, ← hns]; rfl)
      subst this
      exact settled_inherit_other ns' incl incl' p (hcur p hp) hns
  · rw [(syncLabels_frame kind' ns' incl' s).2.2.2 kind hk]
    exact hcur

/-! ## The loops of `Reconcile`, case by case -/

/-- The four ways one iteration of the namespace loop can go. -/
theorem namespaceLoop_cases (P : LoopExit → Prop) (sel : Selector) (ns : Namespace)
    (rest : List Namespace) (inh : Inheritor) (s : Cluster)
    (h1 : ∀ e, (syncLabels .configMap ns sel.IncludeLabels s).1 = some e →
      P (.returned ⟨⟨Minute * 2⟩, some e, inh.setStatus ns.Name ⟨ns.Name, false⟩,
        (syncLabels .configMap ns sel.IncludeLabels s).2⟩))
    (h2 : (syncLabels .configMap ns sel.IncludeLabels s).1 = none →
      ∀ e, (syncLabels .pod ns sel.IncludeLabels
          (syncLabels .configMap ns sel.IncludeLabels s).2).1 = some e →
      P (.returned ⟨⟨Minute * 2⟩, some e, inh.setStatus ns.Name ⟨ns.Name, false⟩,
        (syncLabels .pod ns sel.IncludeLabels (syncLabels .configMap ns sel.IncludeLabels s).2).2⟩))
    (h3 : (syncLabels .configMap ns sel.IncludeLabels s).1 = none →
      (syncLabels .pod ns sel.IncludeLabels
          (syncLabels .configMap ns sel.IncludeLabels s).2).1 = none →
      ∀ e, (clientStatusUpdate (inh.setStatus ns.Name ⟨ns.Name, true⟩)
          (syncLabels .pod ns sel.IncludeLabels
            (syncLabels .configMap ns sel.IncludeLabels s).2).2).1 = some e →
      P (.returned ⟨⟨Minute * 2⟩, some e, inh.setStatus ns.Name ⟨ns.Name, true⟩,
        (clientStatusUpdate (inh.setStatus ns.Name ⟨ns.Name, true⟩)
          (syncLabels .pod ns sel.IncludeLabels
            (syncLabels .configMap ns sel.IncludeLabels s).2).2).2⟩))
    (h4 : (syncLabels .configMap ns sel.IncludeLabels s).1 = none →
      (syncLabels .pod ns sel.IncludeLabels
          (syncLabels .configMap ns sel.IncludeLabels s).2).1 = none →
      (clientStatusUpdate (inh.setStatus ns.Name ⟨ns.Name, true⟩)
          (syncLabels .pod ns sel.IncludeLabels
            (syncLabels .configMap ns sel.IncludeLabels s).2).2).1 = none →
      P (namespaceLoop sel rest (inh.setStatus ns.Name ⟨ns.Name, true⟩)
        (clientStatusUpdate (inh.setStatus ns.Name ⟨ns.Name, true⟩)
          (syncLabels .pod ns sel.IncludeLabels
            (syncLabels .configMap ns sel.IncludeLabels s).2).2).2)) :
    P (namespaceLoop sel (ns :: rest) inh s) := by
  simp only [namespaceLoop, syncConfigMapLabels, syncPodLabels]
  rcases hc : syncLabels .configMap ns sel.IncludeLabels s with ⟨_ | e1, s1⟩
  · rw [hc] at h2 h3 h4
    simp only at h2 h3 h4 ⊢
    rcases hp : syncLabels .pod ns sel.IncludeLabels s1 with ⟨_ | e2, s2⟩
    · rw [hp] at h2 h3 h4
      simp only at h3 h4 ⊢
      rcases hu : clientStatusUpdate (inh.setStatus ns.Name ⟨ns.Name, true⟩) s2 with ⟨_ | e3, s3⟩
      · rw [hu] at h4
        exact h4 trivial trivial rfl
      · rw [hu] at h3
        exact h3 trivial trivial e3 rfl
    · rw [hp] at h2
      exact h2 trivial e2 rfl
  · rw [hc] at h1
    exact h1 e1 rfl

/-- The three ways one iteration of the selector loop can go. -/
theorem selectorLoop_cases (P : LoopExit → Prop) (sel : Selector) (rest : List Selector)
    (inh : Inheritor) (s : Cluster)
    (h1 : ∀ e, (clientListNamespaces sel.NamespaceSelector.MatchLabels s).1 = .error e →
      P (.returned ⟨⟨Minute * 2⟩, some e, inh,
        (clientListNamespaces sel.NamespaceSelector.MatchLabels s).2⟩))
    (h2 : (clientListNamespaces sel.NamespaceSelector.MatchLabels s).1
        = .ok (matchedNamespaces sel s) →
      ∀ o, namespaceLoop sel (matchedNamespaces sel s) inh
          (clientListNamespaces sel.NamespaceSelector.MatchLabels s).2 = .returned o →
      P (.returned o))
    (h3 : (clientListNamespaces sel.NamespaceSelector.MatchLabels s).1
        = .ok (matchedNamespaces sel s) →
      ∀ inh1 s2, namespaceLoop sel (matchedNamespaces sel s) inh
          (clientListNamespaces sel.NamespaceSelector.MatchLabels s).2 = .finished inh1 s2 →
      P (selectorLoop rest inh1 s2)) :
    P (selectorLoop (sel :: rest) inh s) := by
  simp only [selectorLoop]
  obtain ⟨_, _, _, _, _, h6⟩ := clientListNamespaces_spec sel.NamespaceSelector.MatchLabels s
  rcases hl : clientListNamespaces sel.NamespaceSelector.MatchLabels s with ⟨e | items, s1⟩
  · rw [hl] at h1
    exact h1 e rfl
  · rw [hl] at h2 h3 h6
    simp only at h2 h3 h6 ⊢
    have hitems : items = matchedNamespaces sel s := h6 items rfl
    subst hitems
    rcases hn : namespaceLoop sel (matchedNamespaces sel s) inh s1 with o | ⟨inh1, s2⟩
    · exact h2 rfl o hn
    · exact h3 rfl inh1 s2 hn

/-- The pass after the spec resource is loaded: the selector loop, then the final return. -/
theorem reconcileLoaded_eq (inh : Inheritor) (s : Cluster) :
    (reconcileLoaded inh s).cluster
        = (selectorLoop inh.Spec.Selectors
            (if inh.Status.Namespaces.isNone then { inh with Status := { Namespaces := some [] } }
              else inh) s).cluster ∧
    (reconcileLoaded inh s).err
        = (selectorLoop inh.Spec.Selectors
            (if inh.Status.Namespaces.isNone then { inh with Status := { Namespaces := some [] } }
              else inh) s).err ∧
    (reconcileLoaded inh s).inheritor
        = (selectorLoop inh.Spec.Selectors
            (if inh.Status.Namespaces.isNone then { inh with Status := { Namespaces := some [] } }
              else inh) s).inheritor := by
  unfold reconcileLoaded
  have hsel : (if inh.Status.Namespaces.isNone then
      ({ inh with Status := { Namespaces := some [] } } : Inheritor) else inh).Spec.Selectors
      = inh.Spec.Selectors := by
    split <;> rfl
  simp only [hsel]
  rcases selectorLoop inh.Spec.Selectors _ s with o | ⟨inh1, s1⟩ <;>
    simp [LoopExit.cluster, LoopExit.err, LoopExit.inheritor]

/-- The three ways `Reconcile` can load the spec resource. -/
theorem Reconcile_cases (P : Outcome → Prop) (req : NamespacedName) (s : Cluster)
    (h1 : ∀ e, (clientGet req s).1 = .error e → e ≠ .notFound →
      P ⟨⟨Minute * 2⟩, some e, {}, (clientGet req s).2⟩)
    (h2 : (clientGet req s).1 = .error .notFound →
      ∀ e, (clientCreate { Status := { Namespaces := some [] } } (clientGet req s).2).1 = some e →
      P ⟨⟨Minute * 2⟩, some e, { Status := { Namespaces := some [] } },
        (clientCreate { Status := { Namespaces := some [] } } (clientGet req s).2).2⟩)
    (h3 : (clientGet req s).1 = .error .notFound →
      (clientCreate { Status := { Namespaces := some [] } } (clientGet req s).2).1 = none →
      P (reconcileLoaded { Status := { Namespaces := some [] } }
        (clientCreate { Status := { Namespaces := some [] } } (clientGet req s).2).2))
    (h4 : ∀ inh, (clientGet req s).1 = .ok inh → P (reconcileLoaded inh (clientGet req s).2)) :
    P (Reconcile req s) := by
  unfold Reconcile
  rcases hg : clientGet req s with ⟨e | inh, s1⟩
  · rw [hg] at h1 h2 h3
    simp only at h1 h2 h3 ⊢
    cases e with
    | notFound =>
      simp only [IsNotFound, if_true]
      rcases hc : clientCreate { Status := { Namespaces := some [] } } s1 with ⟨_ | e1, s2⟩
      · rw [hc] at h3
        exact h3 rfl rfl
      · rw [hc] at h2
        exact h2 rfl e1 rfl
    | alreadyExists =>
      simpa [IsNotFound, IgnoreNotFound] using h1 .alreadyExists rfl (by simp)
    | invalid =>
      simpa [IsNotFound, IgnoreNotFound] using h1 .invalid rfl (by simp)
    | failure reason =>
      simpa [IsNotFound, IgnoreNotFound] using h1 (.failure reason) rfl (by simp)
  · rw [hg] at h4
    exact h4 inh rfl

/-! ## What every pass preserves -/

theorem namespaceLoop_result (sel : Selector) (items : List Namespace) (inh : Inheritor)
    (s : Cluster) :
    ∀ o, namespaceLoop sel items inh s = .returned o → o.result = ⟨Minute * 2⟩ := by
  induction items generalizing inh s with
  | nil => simp [namespaceLoop]
  | cons ns rest ih =>
    apply namespaceLoop_cases (fun ex => ∀ o, ex = .returned o → o.result = ⟨Minute * 2⟩)
    · intro e _ o ho
      cases ho
      rfl
    · intro _ e _ o ho
      cases ho
      rfl
    · intro _ _ e _ o ho
      cases ho
      rfl
    · intro _ _ _
      exact ih _ _

theorem selectorLoop_result (sels : List Selector) (inh : Inheritor) (s : Cluster) :
    ∀ o, selectorLoop sels inh s = .returned o → o.result = ⟨Minute * 2⟩ := by
  induction sels generalizing inh s with
  | nil => simp [selectorLoop]
  | cons sel rest ih =>
    apply selectorLoop_cases (fun ex => ∀ o, ex = .returned o → o.result = ⟨Minute * 2⟩)
    · intro e _ o ho
      cases ho
      rfl
    · intro _ o ho o' ho'
      cases ho'
      exact namespaceLoop_result _ _ _ _ o ho
    · intro _ inh1 s2 _
      exact ih _ _

theorem reconcileLoaded_result (inh : Inheritor) (s : Cluster) :
    (reconcileLoaded inh s).result = ⟨Minute * 2⟩ := by
  unfold reconcileLoaded
  simp only
  split
  · next o ho => exact selectorLoop_result _ _ _ o ho
  · rfl

/-- The loops never change the spec, the name or the namespace of the in-memory resource. -/
theorem namespaceLoop_spec (sel : Selector) (items : List Namespace) (inh : Inheritor)
    (s : Cluster) :
    (namespaceLoop sel items inh s).inheritor.Spec = inh.Spec ∧
    (namespaceLoop sel items inh s).inheritor.Name = inh.Name ∧
    (namespaceLoop sel items inh s).inheritor.Namespace = inh.Namespace := by
  induction items generalizing inh s with
  | nil => simp [namespaceLoop, LoopExit.inheritor]
  | cons ns rest ih =>
    apply namespaceLoop_cases (fun ex => ex.inheritor.Spec = inh.Spec ∧
      ex.inheritor.Name = inh.Name ∧ ex.inheritor.Namespace = inh.Namespace)
    · intro e _
      exact ⟨rfl, rfl, rfl⟩
    · intro _ e _
      exact ⟨rfl, rfl, rfl⟩
    · intro _ _ e _
      exact ⟨rfl, rfl, rfl⟩
    · intro _ _ _
      exact ih _ _

theorem selectorLoop_spec (sels : List Selector) (inh : Inheritor) (s : Cluster) :
    (selectorLoop sels inh s).inheritor.Spec = inh.Spec ∧
    (selectorLoop sels inh s).inheritor.Name = inh.Name ∧
    (selectorLoop sels inh s).inheritor.Namespace = inh.Namespace := by
  induction sels generalizing inh s with
  | nil => simp [selectorLoop, LoopExit.inheritor]
  | cons sel rest ih =>
    apply selectorLoop_cases (fun ex => ex.inheritor.Spec = inh.Spec ∧
      ex.inheritor.Name = inh.Name ∧ ex.inheritor.Namespace = inh.Namespace)
    · intro e _
      exact ⟨rfl, rfl, rfl⟩
    · intro _ o ho
      have := namespaceLoop_spec sel (matchedNamespaces sel s) inh
        (clientListNamespaces sel.NamespaceSelector.MatchLabels s).2
      rw [ho] at this
      exact this
    · intro _ inh1 s2 hn
      have := namespaceLoop_spec sel (matchedNamespaces sel s) inh
        (clientListNamespaces sel.NamespaceSelector.MatchLabels s).2
      rw [hn] at this
      obtain ⟨a, b, c⟩ := ih inh1 s2
      exact ⟨a.trans this.1, b.trans this.2.1, c.trans this.2.2⟩

theorem reconcileLoaded_spec (inh : Inheritor) (s : Cluster) :
    (reconcileLoaded inh s).inheritor.Spec = inh.Spec := by
  rw [(reconcileLoaded_eq inh s).2.2, (selectorLoop_spec _ _ _).1]
  split <;> rfl

/-- An invariant of the stored pods and config maps that every synchronization of a listed
namespace preserves is preserved by the namespace loop, which also leaves the namespaces
alone. -/
theorem namespaceLoop_invariant (I : Cluster → Prop)
    (hframe : ∀ s₁ s₂ : Cluster, (∀ k, s₂.objects k = s₁.objects k) → I s₁ → I s₂)
    (sel : Selector) (items : List Namespace)
    (hsync : ∀ kind ns s, ns ∈ items → I s → I (syncLabels kind ns sel.IncludeLabels s).2)
    (inh : Inheritor) (s : Cluster) (h : I s) :
    I (namespaceLoop sel items inh s).cluster ∧
    (namespaceLoop sel items inh s).cluster.namespaces = s.namespaces := by
  induction items generalizing inh s with
  | nil => simpa [namespaceLoop, LoopExit.cluster] using h
  | cons ns rest ih =>
    have hc := hsync .configMap ns s (by simp) h
    have hp := hsync .pod ns _ (by simp) hc
    have nc := (syncLabels_frame .configMap ns sel.IncludeLabels s).2.1
    have np := (syncLabels_frame .pod ns sel.IncludeLabels
      (syncLabels .configMap ns sel.IncludeLabels s).2).2.1
    apply namespaceLoop_cases (fun ex => I ex.cluster ∧ ex.cluster.namespaces = s.namespaces)
    · intro e _
      exact ⟨hc, nc⟩
    · intro _ e _
      exact ⟨hp, np.trans nc⟩
    · intro _ _ e _
      obtain ⟨_, u2, u3, _⟩ := clientStatusUpdate_spec (inh.setStatus ns.Name ⟨ns.Name, true⟩)
        (syncLabels .pod ns sel.IncludeLabels (syncLabels .configMap ns sel.IncludeLabels s).2).2
      exact ⟨hframe _ _ u3 hp, u2.trans (np.trans nc)⟩
    · intro _ _ _
      obtain ⟨_, u2, u3, _⟩ := clientStatusUpdate_spec (inh.setStatus ns.Name ⟨ns.Name, true⟩)
        (syncLabels .pod ns sel.IncludeLabels (syncLabels .configMap ns sel.IncludeLabels s).2).2
      obtain ⟨i1, i2⟩ := ih (fun kind ns' s' hns' => hsync kind ns' s' (by simp [hns'])) _ _
        (hframe _ _ u3 hp)
      exact ⟨i1, i2.trans (u2.trans (np.trans nc))⟩

/-- The same for the selector loop: the synchronizations to consider are those of a namespace
matched by a selector of the list. -/
theorem selectorLoop_invariant (I : Cluster → Prop)
    (hframe : ∀ s₁ s₂ : Cluster, (∀ k, s₂.objects k = s₁.objects k) → I s₁ → I s₂)
    (nsl : List Namespace) (sels : List Selector)
    (hsync : ∀ kind sel ns s, sel ∈ sels → ns ∈ nsl →
      selectorMatches sel.NamespaceSelector.MatchLabels ns.Labels = true →
      I s → I (syncLabels kind ns sel.IncludeLabels s).2)
    (inh : Inheritor) (s : Cluster) (hns : s.namespaces = nsl) (h : I s) :
    I (selectorLoop sels inh s).cluster ∧ (selectorLoop sels inh s).cluster.namespaces = nsl := by
  induction sels generalizing inh s with
  | nil => simpa [selectorLoop, LoopExit.cluster] using ⟨h, hns⟩
  | cons sel rest ih =>
    obtain ⟨_, l2, _, l4, _, _⟩ := clientListNamespaces_spec sel.NamespaceSelector.MatchLabels s
    have hl : I (clientListNamespaces sel.NamespaceSelector.MatchLabels s).2 := hframe _ _ l4 h
    have hloop := namespaceLoop_invariant I hframe sel (matchedNamespaces sel s)
      (fun kind ns s' hmem hs' => by
        have hm := List.mem_filter.1 hmem
        exact hsync kind sel ns s' (by simp) (hns ▸ hm.1) hm.2 hs')
      inh (clientListNamespaces sel.NamespaceSelector.MatchLabels s).2 hl
    apply selectorLoop_cases (fun ex => I ex.cluster ∧ ex.cluster.namespaces = nsl)
    · intro e _
      exact ⟨hl, l2.trans hns⟩
    · intro _ o ho
      rw [ho] at hloop
      exact ⟨hloop.1, hloop.2.trans (l2.trans hns)⟩
    · intro _ inh1 s2 hn
      rw [hn] at hloop
      exact ih (fun kind sel' ns s' hsel' => hsync kind sel' ns s' (by simp [hsel'])) inh1 s2
        (hloop.2.trans (l2.trans hns)) hloop.1

theorem clientGet_objects (req : NamespacedName) (s : Cluster) :
    (∀ k, (clientGet req s).2.objects k = s.objects k) ∧
    (clientGet req s).2.namespaces = s.namespaces ∧
    (clientGet req s).2.faults = s.faults ∧
    (clientGet req s).2.inheritors = s.inheritors ∧
    (clientGet req s).2.trace = s.trace ++ [⟨.getInheritor req,
      match (clientGet req s).1 with
      | .error e => some e
      | .ok _ => none⟩] := by
  unfold clientGet
  cases hf : s.faults s.trace (.getInheritor req) with
  | some reason => simp
  | none =>
    cases hfind : s.inheritors.find? (fun i => i.hasKey req) with
    | some obj => simp
    | none => simp

theorem clientCreate_objects (obj : Inheritor) (s : Cluster) :
    (∀ k, (clientCreate obj s).2.objects k = s.objects k) ∧
    (clientCreate obj s).2.namespaces = s.namespaces ∧
    (clientCreate obj s).2.faults = s.faults ∧
    (clientCreate obj s).2.trace = s.trace ++ [⟨.createInheritor obj, (clientCreate obj s).1⟩] := by
  unfold clientCreate
  cases hf : s.faults s.trace (.createInheritor obj) with
  | some reason => simp
  | none =>
    by_cases hname : obj.Name = ""
    · simp only [hname, if_true]
      simp
    · simp only [hname, if_false]
      by_cases hany : s.inheritors.any (fun i => i.hasKey ⟨obj.Namespace, obj.Name⟩) = true
      · simp only [hany, if_true]
        simp
      · simp only [hany]
        refine ⟨?_, rfl, rfl, rfl⟩
        intro k
        cases k <;> rfl

/-- An invariant of the stored pods and config maps is preserved by a pass when it is preserved
by every synchronization of a namespace matched by a selector of the spec resource. -/
theorem Reconcile_invariant (I : Cluster → Prop)
    (hframe : ∀ s₁ s₂ : Cluster, (∀ k, s₂.objects k = s₁.objects k) → I s₁ → I s₂)
    (req : NamespacedName) (s : Cluster)
    (hsync : ∀ kind sel ns s', sel ∈ (Reconcile req s).inheritor.Spec.Selectors →
      ns ∈ matchedNamespaces sel s → I s' → I (syncLabels kind ns sel.IncludeLabels s').2)
    (h : I s) :
    I (Reconcile req s).cluster ∧ (Reconcile req s).cluster.namespaces = s.namespaces := by
  obtain ⟨g1, g2, _, _⟩ := clientGet_objects req s
  have hg : I (clientGet req s).2 := hframe _ _ g1 h
  revert hsync
  apply Reconcile_cases (fun o => (∀ kind sel ns s', sel ∈ o.inheritor.Spec.Selectors →
      ns ∈ matchedNamespaces sel s → I s' → I (syncLabels kind ns sel.IncludeLabels s').2) →
      I o.cluster ∧ o.cluster.namespaces = s.namespaces)
  · intro e _ _ _
    exact ⟨hg, g2⟩
  · intro _ e _ _
    obtain ⟨c1, c2, _, _⟩ := clientCreate_objects { Status := { Namespaces := some [] } }
      (clientGet req s).2
    exact ⟨hframe _ _ c1 hg, c2.trans g2⟩
  · intro _ _ _
    obtain ⟨c1, c2, _, _⟩ := clientCreate_objects { Status := { Namespaces := some [] } }
      (clientGet req s).2
    rw [(reconcileLoaded_eq _ _).1]
    simp only [selectorLoop, LoopExit.cluster]
    exact ⟨hframe _ _ c1 hg, c2.trans g2⟩
  · intro inh _ hsync
    rw [reconcileLoaded_spec] at hsync
    rw [(reconcileLoaded_eq _ _).1]
    exact selectorLoop_invariant I hframe s.namespaces inh.Spec.Selectors
      (fun kind sel ns s' hsel hns hm hs' =>
        hsync kind sel ns s' hsel (List.mem_filter.2 ⟨hns, hm⟩) hs') _ _ g2 hg

/-- A `return` from inside the namespace loop carries an error. -/
theorem namespaceLoop_returned_err (sel : Selector) (items : List Namespace) (inh : Inheritor)
    (s : Cluster) : ∀ o, namespaceLoop sel items inh s = .returned o → o.err ≠ none := by
  induction items generalizing inh s with
  | nil => simp [namespaceLoop]
  | cons ns rest ih =>
    apply namespaceLoop_cases (fun ex => ∀ o, ex = .returned o → o.err ≠ none)
    · intro e _ o ho
      cases ho
      simp
    · intro _ e _ o ho
      cases ho
      simp
    · intro _ _ e _ o ho
      cases ho
      simp
    · intro _ _ _
      exact ih _ _

/-! ## The calls of a pass and the status map -/

theorem statusOf_setStatus_self (inh : Inheritor) (n : String) (st : NamespaceStatus) :
    (inh.setStatus n st).statusOf n = some st := by
  simp [Inheritor.setStatus, Inheritor.statusOf, mapFind_mapSet_self]

theorem statusOf_setStatus_keep (inh : Inheritor) (n m : String) (st v : NamespaceStatus)
    (h : n ≠ m) (hv : inh.statusOf m = some v) : (inh.setStatus n st).statusOf m = some v := by
  cases hns : inh.Status.Namespaces with
  | none => simp [Inheritor.statusOf, hns] at hv
  | some mp =>
    simp only [Inheritor.statusOf, hns] at hv
    simp [Inheritor.setStatus, Inheritor.statusOf, mapFind_mapSet_ne _ _ _ _ h, hns, hv]

theorem not_ok_of_failed_object_call (c : Call) (e : APIError) (n : String)
    (hc : c.objectNamespace = some n) : ¬ Event.ok ⟨c, some e⟩ := by
  rintro (h | ⟨key, hk⟩)
  · exact Option.noConfusion h
  · cases hk
    simp [Call.objectNamespace] at hc

theorem abortedSyncing_append_left {T₁ T₂ : List Event} {n : String}
    (h : AbortedSyncing T₂ n) : AbortedSyncing (T₁ ++ T₂) n := by
  obtain ⟨pre, c, e, hT, hc⟩ := h
  exact ⟨T₁ ++ pre, c, e, by simp [hT], hc⟩

theorem abortedSyncing_of_append {T₁ T₂ : List Event} {n : String}
    (hok : ∀ ev ∈ T₁, ev.ok) (h : AbortedSyncing (T₁ ++ T₂) n) : AbortedSyncing T₂ n := by
  obtain ⟨pre, c, e, hT, hc⟩ := h
  rcases List.eq_nil_or_concat T₂ with h2 | ⟨init, last, h2⟩
  · subst h2
    exfalso
    rw [List.append_nil] at hT
    exact not_ok_of_failed_object_call c e n hc (hok _ (by rw [hT]; simp))
  · subst h2
    have h3 : (T₁ ++ init) ++ [last] = pre ++ [⟨c, some e⟩] := by simpa using hT
    have h4 := List.append_inj_right' h3 (by simp)
    simp only [List.cons.injEq, and_true] at h4
    exact ⟨init, c, e, by rw [h4]; simp, hc⟩

theorem not_abortedSyncing_of_ok {T : List Event} {n : String} (hok : ∀ ev ∈ T, ev.ok) :
    ¬ AbortedSyncing T n := by
  rintro ⟨pre, c, e, hT, hc⟩
  exact not_ok_of_failed_object_call c e n hc (hok _ (by rw [hT]; simp))

/-- Status accuracy composes along a run: a first part without failure, then a second part. -/
theorem statusAccurate_seq {inh inh₁ inh₂ : Inheritor} {T₁ T₂ : List Event}
    (hok : ∀ ev ∈ T₁, ev.ok) (h₁ : StatusAccurate inh T₁ inh₁)
    (h₂ : StatusAccurate inh₁ T₂ inh₂) : StatusAccurate inh (T₁ ++ T₂) inh₂ := by
  refine ⟨fun n hn => h₂.1 n (abortedSyncing_of_append hok hn), ?_⟩
  intro m hm hnot
  have hnot₂ : ¬ AbortedSyncing T₂ m := fun h => hnot (abortedSyncing_append_left h)
  have hnot₁ : ¬ AbortedSyncing T₁ m := not_abortedSyncing_of_ok hok
  rcases hm with ⟨ev, hev, hc⟩ | hm
  · rcases List.mem_append.1 hev with h | h
    · exact h₂.2 m (Or.inr (h₁.2 m (Or.inl ⟨ev, h, hc⟩) hnot₁)) hnot₂
    · exact h₂.2 m (Or.inl ⟨ev, h, hc⟩) hnot₂
  · exact h₂.2 m (Or.inr (h₁.2 m (Or.inr hm) hnot₁)) hnot₂

theorem statusAccurate_nil (inh : Inheritor) : StatusAccurate inh [] inh := by
  refine ⟨?_, ?_⟩
  · rintro n ⟨pre, c, e, hT, _⟩
    simp at hT
  · rintro m (⟨ev, hev, _⟩ | hm) _
    · simp at hev
    · exact hm

/-- Events without a namespace of their own leave status accuracy as it is. -/
theorem statusAccurate_plain (inh : Inheritor) (c : Call) (err : Option APIError)
    (hc : c.objectNamespace = none) : StatusAccurate inh [⟨c, err⟩] inh := by
  refine ⟨?_, ?_⟩
  · rintro n ⟨pre, c', e, hT, hc'⟩
    have h' : ([] : List Event) ++ [⟨c, err⟩] = pre ++ [⟨c', some e⟩] := by simpa using hT
    have := List.append_inj_right' h' rfl
    simp only [List.cons.injEq, and_true, Event.mk.injEq] at this
    rw [← this.1, hc] at hc'
    exact Option.noConfusion hc'
  · rintro m (⟨ev, hev, hc'⟩ | hm) _
    · simp only [List.mem_singleton] at hev
      subst hev
      rw [hc] at hc'
      exact Option.noConfusion hc'
    · exact hm

/-- The iteration for `ns` failed in one of the two synchronizations. -/
theorem statusAccurate_failed (inh : Inheritor) (ns : Namespace) (T : List Event) (e : APIError)
    (hns : ∀ ev ∈ T, ev.call.objectNamespace = some ns.Name)
    (hstop : StopsAtFirstError T (some e)) :
    StatusAccurate inh T (inh.setStatus ns.Name ⟨ns.Name, false⟩) := by
  obtain ⟨pre, c, hT, _⟩ := hstop
  have hc : c.objectNamespace = some ns.Name := hns ⟨c, some e⟩ (by rw [hT]; simp)
  have hlast : ∀ n, AbortedSyncing T n → n = ns.Name := by
    rintro n ⟨pre', c', e', hT', hc'⟩
    have := hns ⟨c', some e'⟩ (by rw [hT']; simp)
    simp only at this
    rw [hc'] at this
    exact Option.some.inj this
  refine ⟨?_, ?_⟩
  · intro n hn
    rw [hlast n hn]
    exact statusOf_setStatus_self _ _ _
  · intro m hm hnot
    have hne : ns.Name ≠ m := by
      rintro rfl
      exact hnot ⟨pre, c, e, hT, hc⟩
    rcases hm with ⟨ev, hev, hc'⟩ | hm
    · rw [hns ev hev] at hc'
      exact absurd (Option.some.inj hc') hne
    · exact statusOf_setStatus_keep _ _ _ _ _ hne hm

/-- The iteration for `ns` got through both synchronizations and made its status update. -/
theorem statusAccurate_synced (inh obj : Inheritor) (ns : Namespace) (T : List Event)
    (err : Option APIError) (hns : ∀ ev ∈ T, ev.call.objectNamespace = some ns.Name) :
    StatusAccurate inh (T ++ [⟨.updateStatus obj, err⟩])
      (inh.setStatus ns.Name ⟨ns.Name, true⟩) := by
  refine ⟨?_, ?_⟩
  · rintro n ⟨pre, c, e, hT, hc⟩
    have := List.append_inj_right' hT (by simp)
    simp only [List.cons.injEq, and_true, Event.mk.injEq] at this
    rw [← this.1] at hc
    simp [Call.objectNamespace] at hc
  · intro m hm _
    by_cases hne : ns.Name = m
    · subst hne
      exact statusOf_setStatus_self _ _ _
    · rcases hm with ⟨ev, hev, hc'⟩ | hm
      · rcases List.mem_append.1 hev with h | h
        · rw [hns ev h] at hc'
          exact absurd (Option.some.inj hc') hne
        · simp only [List.mem_singleton] at h
          subst h
          simp [Call.objectNamespace] at hc'
      · exact statusOf_setStatus_keep _ _ _ _ _ hne hm

/-- The events of one synchronization, in the form the loop lemmas use. -/
theorem syncLabels_events (kind : Kind) (ns : Namespace) (incl : List String) (s : Cluster) :
    ∃ T, (syncLabels kind ns incl s).2.trace = s.trace ++ T ∧
      StopsAtFirstError T (syncLabels kind ns incl s).1 ∧
      (∀ ev ∈ T, ev.call.objectNamespace = some ns.Name) ∧
      (∀ ev ∈ T, ev.call.objectKind = some kind) := by
  obtain ⟨e, T, hT, hstop, hcalls⟩ := syncLabels_trace kind ns incl s
  refine ⟨_, hT, hstop, ?_, ?_⟩
  · intro ev hev
    rcases List.mem_cons.1 hev with rfl | hev
    · rfl
    · obtain ⟨obj, hc, hn⟩ := hcalls ev hev
      rw [hc]
      simp [Call.objectNamespace, hn]
  · intro ev hev
    rcases List.mem_cons.1 hev with rfl | hev
    · rfl
    · obtain ⟨obj, hc, _⟩ := hcalls ev hev
      rw [hc]
      rfl

/-- The calls of the namespace loop stop at the first failure, work only in the listed
namespaces, and leave the in-memory status map accurate. -/
theorem namespaceLoop_trace (sel : Selector) (items : List Namespace) (inh : Inheritor)
    (s : Cluster) :
    ∃ T, (namespaceLoop sel items inh s).cluster.trace = s.trace ++ T ∧
      StopsAtFirstError T (namespaceLoop sel items inh s).err ∧
      StatusAccurate inh T (namespaceLoop sel items inh s).inheritor ∧
      (∀ ev ∈ T, ∀ n, ev.call.objectNamespace = some n → ∃ ns ∈ items, ns.Name = n) := by
  induction items generalizing inh s with
  | nil =>
    exact ⟨[], by simp [namespaceLoop, LoopExit.cluster], by
      simpa [namespaceLoop, LoopExit.err] using stops_nil, by
      simpa [namespaceLoop, LoopExit.inheritor] using statusAccurate_nil inh, by simp⟩
  | cons ns rest ih =>
    obtain ⟨Tc, hTc, hsc, hnc, _⟩ := syncLabels_events .configMap ns sel.IncludeLabels s
    obtain ⟨Tp, hTp, hsp, hnp, _⟩ := syncLabels_events .pod ns sel.IncludeLabels
      (syncLabels .configMap ns sel.IncludeLabels s).2
    obtain ⟨_, _, _, hTu⟩ := clientStatusUpdate_spec (inh.setStatus ns.Name ⟨ns.Name, true⟩)
      (syncLabels .pod ns sel.IncludeLabels (syncLabels .configMap ns sel.IncludeLabels s).2).2
    have hmem : ∀ T : List Event, (∀ ev ∈ T, ev.call.objectNamespace = some ns.Name) →
        ∀ ev ∈ T, ∀ n, ev.call.objectNamespace = some n → ∃ ns' ∈ ns :: rest, ns'.Name = n := by
      intro T hT ev hev n hn
      rw [hT ev hev] at hn
      exact ⟨ns, by simp, Option.some.inj hn⟩
    have hcp : ∀ ev ∈ Tc ++ Tp, ev.call.objectNamespace = some ns.Name := by
      intro ev hev
      rcases List.mem_append.1 hev with h | h
      · exact hnc ev h
      · exact hnp ev h
    apply namespaceLoop_cases (fun ex => ∃ T, ex.cluster.trace = s.trace ++ T ∧
      StopsAtFirstError T ex.err ∧ StatusAccurate inh T ex.inheritor ∧
      (∀ ev ∈ T, ∀ n, ev.call.objectNamespace = some n → ∃ ns' ∈ ns :: rest, ns'.Name = n))
    · intro e he
      rw [he] at hsc
      exact ⟨Tc, hTc, hsc, statusAccurate_failed inh ns Tc e hnc hsc, hmem Tc hnc⟩
    · intro hc e he
      rw [hc] at hsc
      rw [he] at hsp
      refine ⟨Tc ++ Tp, ?_, stops_append hsc hsp,
        statusAccurate_failed inh ns _ e hcp (stops_append hsc hsp), hmem _ hcp⟩
      simp only [LoopExit.cluster]
      rw [hTp, hTc, List.append_assoc]
    · intro hc hp e he
      rw [hc] at hsc
      rw [hp] at hsp
      rw [he] at hTu
      refine ⟨(Tc ++ Tp) ++ [⟨.updateStatus (inh.setStatus ns.Name ⟨ns.Name, true⟩), some e⟩], ?_,
        stops_append (stops_append hsc hsp) (stops_single_err _ _),
        statusAccurate_synced inh _ ns _ _ hcp, ?_⟩
      · simp only [LoopExit.cluster]
        rw [hTu, hTp, hTc]
        simp
      · intro ev hev n hn
        rcases List.mem_append.1 hev with h | h
        · exact hmem _ hcp ev h n hn
        · simp only [List.mem_singleton] at h
          subst h
          simp [Call.objectNamespace] at hn
    · intro hc hp hu
      rw [hc] at hsc
      rw [hp] at hsp
      rw [hu] at hTu
      obtain ⟨T, hT, hstop, hacc, hin⟩ := ih (inh.setStatus ns.Name ⟨ns.Name, true⟩)
        (clientStatusUpdate (inh.setStatus ns.Name ⟨ns.Name, true⟩)
          (syncLabels .pod ns sel.IncludeLabels
            (syncLabels .configMap ns sel.IncludeLabels s).2).2).2
      have hok : StopsAtFirstError
          ((Tc ++ Tp) ++ [⟨.updateStatus (inh.setStatus ns.Name ⟨ns.Name, true⟩), none⟩]) none :=
        stops_append (stops_append hsc hsp) (stops_single_ok _ (Or.inl rfl))
      refine ⟨((Tc ++ Tp) ++ [⟨.updateStatus (inh.setStatus ns.Name ⟨ns.Name, true⟩), none⟩]) ++ T,
        ?_, stops_append hok hstop,
        statusAccurate_seq (stops_none hok)
          (statusAccurate_synced inh _ ns _ _ hcp) hacc, ?_⟩
      · rw [hT, hTu, hTp, hTc]
        simp
      · intro ev hev n hn
        rcases List.mem_append.1 hev with h | h
        · rcases List.mem_append.1 h with h | h
          · exact hmem _ hcp ev h n hn
          · simp only [List.mem_singleton] at h
            subst h
            simp [Call.objectNamespace] at hn
        · obtain ⟨ns', hns', hname⟩ := hin ev h n hn
          exact ⟨ns', by simp [hns'], hname⟩

theorem statusAccurate_listNamespaces (inh : Inheritor) (ml : Labels) (err : Option APIError) :
    StatusAccurate inh [⟨.listNamespaces ml, err⟩] inh :=
  statusAccurate_plain inh (.listNamespaces ml) err rfl

theorem statusAccurate_get (inh : Inheritor) (key : NamespacedName) (err : Option APIError) :
    StatusAccurate inh [⟨.getInheritor key, err⟩] inh :=
  statusAccurate_plain inh (.getInheritor key) err rfl

theorem statusAccurate_create (inh obj : Inheritor) (err : Option APIError) :
    StatusAccurate inh [⟨.createInheritor obj, err⟩] inh :=
  statusAccurate_plain inh (.createInheritor obj) err rfl

theorem matchedNamespaces_congr (sel : Selector) (s s' : Cluster)
    (h : s'.namespaces = s.namespaces) : matchedNamespaces sel s' = matchedNamespaces sel s := by
  unfold matchedNamespaces
  rw [h]

theorem namespaceLoop_namespaces (sel : Selector) (items : List Namespace) (inh : Inheritor)
    (s : Cluster) : (namespaceLoop sel items inh s).cluster.namespaces = s.namespaces :=
  (namespaceLoop_invariant (fun _ => True) (fun _ _ _ _ => trivial) sel items
    (fun _ _ _ _ _ => trivial) inh s trivial).2

/-- The calls of the selector loop stop at the first failure, work only in namespaces matched
by a selector of the list, and leave the in-memory status map accurate. -/
theorem selectorLoop_trace (sels : List Selector) (inh : Inheritor) (s : Cluster) :
    ∃ T, (selectorLoop sels inh s).cluster.trace = s.trace ++ T ∧
      StopsAtFirstError T (selectorLoop sels inh s).err ∧
      StatusAccurate inh T (selectorLoop sels inh s).inheritor ∧
      (∀ ev ∈ T, ∀ n, ev.call.objectNamespace = some n →
        ∃ sel ∈ sels, ∃ ns ∈ matchedNamespaces sel s, ns.Name = n) := by
  induction sels generalizing inh s with
  | nil =>
    exact ⟨[], by simp [selectorLoop, LoopExit.cluster], by
      simpa [selectorLoop, LoopExit.err] using stops_nil, by
      simpa [selectorLoop, LoopExit.inheritor] using statusAccurate_nil inh, by simp⟩
  | cons sel rest ih =>
    obtain ⟨_, l2, _, _, hTl, _⟩ := clientListNamespaces_spec sel.NamespaceSelector.MatchLabels s
    obtain ⟨Tn, hTn, hsn, han, hin⟩ := namespaceLoop_trace sel (matchedNamespaces sel s) inh
      (clientListNamespaces sel.NamespaceSelector.MatchLabels s).2
    have hnsn := namespaceLoop_namespaces sel (matchedNamespaces sel s) inh
      (clientListNamespaces sel.NamespaceSelector.MatchLabels s).2
    apply selectorLoop_cases (fun ex => ∃ T, ex.cluster.trace = s.trace ++ T ∧
      StopsAtFirstError T ex.err ∧ StatusAccurate inh T ex.inheritor ∧
      (∀ ev ∈ T, ∀ n, ev.call.objectNamespace = some n →
        ∃ sel' ∈ sel :: rest, ∃ ns ∈ matchedNamespaces sel' s, ns.Name = n))
    · intro e he
      rw [he] at hTl
      refine ⟨_, hTl, stops_single_err _ _, statusAccurate_listNamespaces inh _ _, ?_⟩
      intro ev hev n hn
      simp only [List.mem_singleton] at hev
      subst hev
      simp [Call.objectNamespace] at hn
    · intro hl o ho
      rw [hl] at hTl
      rw [ho] at hTn hsn han
      simp only [LoopExit.cluster, LoopExit.err, LoopExit.inheritor] at hTn hsn han ⊢
      have hok : StopsAtFirstError
          [(⟨.listNamespaces sel.NamespaceSelector.MatchLabels, none⟩ : Event)] none :=
        stops_single_ok _ (Or.inl rfl)
      refine ⟨[⟨.listNamespaces sel.NamespaceSelector.MatchLabels, none⟩] ++ Tn, ?_,
        stops_append hok hsn,
        statusAccurate_seq (stops_none hok) (statusAccurate_listNamespaces inh _ _) han, ?_⟩
      · rw [hTn, hTl]
        simp
      · intro ev hev n hn
        rcases List.mem_append.1 hev with h | h
        · simp only [List.mem_singleton] at h
          subst h
          simp [Call.objectNamespace] at hn
        · obtain ⟨ns, hns, hname⟩ := hin ev h n hn
          exact ⟨sel, by simp, ns, hns, hname⟩
    · intro hl inh1 s2 hfin
      rw [hl] at hTl
      rw [hfin] at hTn hsn han hnsn
      simp only [LoopExit.cluster, LoopExit.err, LoopExit.inheritor] at hTn hsn han hnsn
      obtain ⟨Tr, hTr, hsr, har, hir⟩ := ih inh1 s2
      have hok : StopsAtFirstError
          [(⟨.listNamespaces sel.NamespaceSelector.MatchLabels, none⟩ : Event)] none :=
        stops_single_ok _ (Or.inl rfl)
      have hok2 := stops_append hok hsn
      refine ⟨([⟨.listNamespaces sel.NamespaceSelector.MatchLabels, none⟩] ++ Tn) ++ Tr, ?_,
        stops_append hok2 hsr,
        statusAccurate_seq (stops_none hok2)
          (statusAccurate_seq (stops_none hok) (statusAccurate_listNamespaces inh _ _) han) har, ?_⟩
      · rw [hTr, hTn, hTl]
        simp
      · intro ev hev n hn
        rcases List.mem_append.1 hev with h | h
        · rcases List.mem_append.1 h with h | h
          · simp only [List.mem_singleton] at h
            subst h
            simp [Call.objectNamespace] at hn
          · obtain ⟨ns, hns, hname⟩ := hin ev h n hn
            exact ⟨sel, by simp, ns, hns, hname⟩
        · obtain ⟨sel', hsel', ns, hns, hname⟩ := hir ev h n hn
          rw [matchedNamespaces_congr sel' s s2 (hnsn.trans l2)] at hns
          exact ⟨sel', by simp [hsel'], ns, hns, hname⟩

theorem reconcileLoaded_trace (inh : Inheritor) (s : Cluster) :
    ∃ T inh₀, (reconcileLoaded inh s).cluster.trace = s.trace ++ T ∧
      StopsAtFirstError T (reconcileLoaded inh s).err ∧
      StatusAccurate inh₀ T (reconcileLoaded inh s).inheritor ∧
      (∀ ev ∈ T, ∀ n, ev.call.objectNamespace = some n →
        ∃ sel ∈ inh.Spec.Selectors, ∃ ns ∈ matchedNamespaces sel s, ns.Name = n) := by
  obtain ⟨h1, h2, h3⟩ := reconcileLoaded_eq inh s
  rw [h1, h2, h3]
  obtain ⟨T, hT⟩ := selectorLoop_trace inh.Spec.Selectors
    (if inh.Status.Namespaces.isNone then { inh with Status := { Namespaces := some [] } }
      else inh) s
  exact ⟨T, _, hT⟩

/-- The calls of a pass: the pass stops at the first call that fails and returns its error;
pods and config maps are listed and updated only in namespaces matched by a selector of the spec
resource; the in-memory status map is accurate. -/
theorem Reconcile_trace (req : NamespacedName) (s : Cluster) :
    ∃ T inh₀, (Reconcile req s).cluster.trace = s.trace ++ T ∧
      StopsAtFirstError T (Reconcile req s).err ∧
      StatusAccurate inh₀ T (Reconcile req s).inheritor ∧
      (∀ ev ∈ T, ∀ n, ev.call.objectNamespace = some n →
        ∃ sel ∈ (Reconcile req s).inheritor.Spec.Selectors,
          ∃ ns ∈ matchedNamespaces sel s, ns.Name = n) := by
  obtain ⟨_, g2, _, _, hTg⟩ := clientGet_objects req s
  apply Reconcile_cases (fun o => ∃ T inh₀, o.cluster.trace = s.trace ++ T ∧
      StopsAtFirstError T o.err ∧ StatusAccurate inh₀ T o.inheritor ∧
      (∀ ev ∈ T, ∀ n, ev.call.objectNamespace = some n →
        ∃ sel ∈ o.inheritor.Spec.Selectors, ∃ ns ∈ matchedNamespaces sel s, ns.Name = n))
  · intro e he _
    rw [he] at hTg
    refine ⟨_, {}, hTg, stops_single_err _ _, statusAccurate_get _ _ _, ?_⟩
    intro ev hev n hn
    simp only [List.mem_singleton] at hev
    subst hev
    simp [Call.objectNamespace] at hn
  · intro hg e he
    rw [hg] at hTg
    obtain ⟨_, _, _, hTc⟩ := clientCreate_objects { Status := { Namespaces := some [] } }
      (clientGet req s).2
    rw [he] at hTc
    have hok : StopsAtFirstError [(⟨.getInheritor req, some .notFound⟩ : Event)] none :=
      stops_single_ok _ (Or.inr ⟨req, rfl⟩)
    refine ⟨[⟨.getInheritor req, some .notFound⟩] ++ [⟨.createInheritor { Status := { Namespaces := some [] } }, some e⟩],
      { Status := { Namespaces := some [] } }, ?_,
      stops_append hok (stops_single_err _ _),
      statusAccurate_seq (stops_none hok) (statusAccurate_get _ _ _)
        (statusAccurate_create _ _ _), ?_⟩
    · simp only
      rw [hTc, hTg]
      simp
    · intro ev hev n hn
      simp only [List.singleton_append, List.mem_cons, List.mem_singleton, List.not_mem_nil,
        or_false] at hev
      rcases hev with rfl | rfl <;> simp [Call.objectNamespace] at hn
  · intro hg hc
    rw [hg] at hTg
    obtain ⟨_, c2, _, hTc⟩ := clientCreate_objects { Status := { Namespaces := some [] } }
      (clientGet req s).2
    rw [hc] at hTc
    obtain ⟨T, inh₀, hT, hstop, hacc, hin⟩ := reconcileLoaded_trace
      { Status := { Namespaces := some [] } }
      (clientCreate { Status := { Namespaces := some [] } } (clientGet req s).2).2
    have hok : StopsAtFirstError ([(⟨.getInheritor req, some .notFound⟩ : Event)] ++
        [⟨.createInheritor { Status := { Namespaces := some [] } }, none⟩]) none :=
      stops_append (stops_single_ok _ (Or.inr ⟨req, rfl⟩)) (stops_single_ok _ (Or.inl rfl))
    refine ⟨([⟨.getInheritor req, some .notFound⟩] ++ [⟨.createInheritor { Status := { Namespaces := some [] } }, none⟩]) ++ T, inh₀, ?_,
      stops_append hok hstop,
      statusAccurate_seq (stops_none hok)
        (statusAccurate_seq (stops_none (stops_single_ok _ (Or.inr ⟨req, rfl⟩)))
          (statusAccurate_get _ _ _) (statusAccurate_create _ _ _)) hacc, ?_⟩
    · rw [hT, hTc, hTg]
      simp
    · intro ev hev n hn
      rcases List.mem_append.1 hev with h | h
      · simp only [List.singleton_append, List.mem_cons, List.mem_singleton, List.not_mem_nil,
          or_false] at h
        rcases h with rfl | rfl <;> simp [Call.objectNamespace] at hn
      · obtain ⟨sel, hsel, _⟩ := hin ev h n hn
        simp at hsel
  · intro inh hg
    rw [hg] at hTg
    obtain ⟨T, inh₀, hT, hstop, hacc, hin⟩ := reconcileLoaded_trace inh (clientGet req s).2
    have hok : StopsAtFirstError [(⟨.getInheritor req, none⟩ : Event)] none :=
      stops_single_ok _ (Or.inl rfl)
    refine ⟨[⟨.getInheritor req, none⟩] ++ T, inh₀, ?_, stops_append hok hstop,
      statusAccurate_seq (stops_none hok) (statusAccurate_get _ _ _) hacc, ?_⟩
    · rw [hT, hTg]
      simp
    · intro ev hev n hn
      rcases List.mem_append.1 hev with h | h
      · simp only [List.mem_singleton] at h
        subst h
        simp [Call.objectNamespace] at hn
      · obtain ⟨sel, hsel, ns, hns, hname⟩ := hin ev h n hn
        rw [matchedNamespaces_congr sel s _ g2] at hns
        rw [reconcileLoaded_spec]
        exact ⟨sel, hsel, ns, hns, hname⟩

theorem passEvents_eq (req : NamespacedName) (s : Cluster) (T : List Event)
    (h : (Reconcile req s).cluster.trace = s.trace ++ T) : passEvents req s = T := by
  unfold passEvents
  rw [h]
  simp

/-! ## The selectors of a pass -/

theorem clientGet_result (req : NamespacedName) (s : Cluster) :
    (∀ inh, (clientGet req s).1 = .ok inh → s.inheritors.find? (fun i => i.hasKey req) = some inh) ∧
    ((clientGet req s).1 = .error .notFound →
      s.inheritors.find? (fun i => i.hasKey req) = none) := by
  unfold clientGet
  cases hf : s.faults s.trace (.getInheritor req) with
  | some reason => simp
  | none =>
    cases hfind : s.inheritors.find? (fun i => i.hasKey req) with
    | some obj => simp
    | none => simp

/-- The in-memory resource of a pass carries the selectors of the stored resource, except
when the pass failed before it had them. -/
theorem Reconcile_selectors (req : NamespacedName) (s : Cluster) :
    (Reconcile req s).inheritor.Spec.Selectors = passSelectors req s ∨
    ((Reconcile req s).inheritor.Spec.Selectors = [] ∧ (Reconcile req s).err ≠ none) := by
  obtain ⟨r1, r2⟩ := clientGet_result req s
  apply Reconcile_cases (fun o => o.inheritor.Spec.Selectors = passSelectors req s ∨
    (o.inheritor.Spec.Selectors = [] ∧ o.err ≠ none))
  · intro e _ _
    exact Or.inr ⟨rfl, by simp⟩
  · intro _ e _
    exact Or.inr ⟨rfl, by simp⟩
  · intro hg _
    left
    rw [reconcileLoaded_spec]
    simp [passSelectors, r2 hg]
  · intro inh hg
    left
    rw [reconcileLoaded_spec]
    simp [passSelectors, r1 inh hg]

theorem Reconcile_selectors_subset (req : NamespacedName) (s : Cluster) :
    ∀ sel ∈ (Reconcile req s).inheritor.Spec.Selectors, sel ∈ passSelectors req s := by
  intro sel hsel
  rcases Reconcile_selectors req s with h | ⟨h, _⟩
  · rwa [h] at hsel
  · rw [h] at hsel
    simp at hsel

/-! ## Convergence of a successful pass -/

theorem namespace_eq_of_name {nsl : List Namespace} (hnd : (nsl.map (fun ns => ns.Name)).Nodup)
    {a b : Namespace} (ha : a ∈ nsl) (hb : b ∈ nsl) (h : a.Name = b.Name) : a = b :=
  List.inj_on_of_nodup_map hnd ha hb h

theorem namespaceLoop_settled (nsl : List Namespace)
    (hnd : (nsl.map (fun ns => ns.Name)).Nodup) (sel : Selector) (items : List Namespace)
    (hitems : ∀ ns ∈ items, ns ∈ nsl) (inh : Inheritor) (s : Cluster)
    (hok : (namespaceLoop sel items inh s).err = none) :
    ∀ ns ∈ items, ∀ kind, ∀ q ∈ (namespaceLoop sel items inh s).cluster.objects kind,
      Settled ns sel.IncludeLabels q := by
  induction items generalizing inh s with
  | nil => simp
  | cons ns rest ih =>
    revert hok
    apply namespaceLoop_cases (fun ex => ex.err = none → ∀ ns' ∈ ns :: rest, ∀ kind,
      ∀ q ∈ ex.cluster.objects kind, Settled ns' sel.IncludeLabels q)
    · intro e _ h
      simp [LoopExit.err] at h
    · intro _ e _ h
      simp [LoopExit.err] at h
    · intro _ _ e _ h
      simp [LoopExit.err] at h
    · intro hc hp _ hok ns' hns' kind
      have hrest : ∀ ns ∈ rest, ns ∈ nsl := fun x hx => hitems x (by simp [hx])
      rcases List.mem_cons.1 hns' with rfl | hmem
      · -- the namespace of this iteration: settled by its two synchronizations, kept by the rest
        have h3 : ∀ kind, ∀ q ∈ (clientStatusUpdate (inh.setStatus ns'.Name ⟨ns'.Name, true⟩)
            (syncLabels .pod ns' sel.IncludeLabels
              (syncLabels .configMap ns' sel.IncludeLabels s).2).2).2.objects kind,
            Settled ns' sel.IncludeLabels q := by
          intro kind
          rw [(clientStatusUpdate_spec _ _).2.2.1 kind]
          cases kind with
          | pod => exact syncLabels_settled .pod ns' sel.IncludeLabels _ hp
          | configMap =>
            rw [(syncLabels_frame .pod ns' sel.IncludeLabels _).2.2.2 .configMap (by simp)]
            exact syncLabels_settled .configMap ns' sel.IncludeLabels _ hc
        exact (namespaceLoop_invariant
          (fun s' => ∀ kind, ∀ q ∈ s'.objects kind, Settled ns' sel.IncludeLabels q)
          (fun s₁ s₂ h12 h1 kind => by rw [h12 kind]; exact h1 kind) sel rest
          (fun kind' ns'' s' hmem' hs' kind =>
            syncLabels_keeps_settled kind kind' ns' ns'' _ _ s'
              (fun hname => namespace_eq_of_name hnd (hrest ns'' hmem') (hitems ns' (by simp)) hname)
              (hs' kind))
          _ _ h3).1 kind
      · exact ih hrest _ _ hok ns' hmem kind

theorem selectorLoop_settled (sels : List Selector) (inh : Inheritor) (s : Cluster)
    (hnd : (s.namespaces.map (fun ns => ns.Name)).Nodup)
    (hok : (selectorLoop sels inh s).err = none) :
    ∀ sel ∈ sels, ∀ ns ∈ matchedNamespaces sel s, ∀ kind,
      ∀ q ∈ (selectorLoop sels inh s).cluster.objects kind, Settled ns sel.IncludeLabels q := by
  induction sels generalizing inh s with
  | nil => simp
  | cons sel rest ih =>
    obtain ⟨_, l2, _, _, _, _⟩ := clientListNamespaces_spec sel.NamespaceSelector.MatchLabels s
    have hsub : ∀ sel' : Selector, ∀ ns ∈ matchedNamespaces sel' s, ns ∈ s.namespaces :=
      fun sel' ns hns => (List.mem_filter.1 hns).1
    revert hok
    apply selectorLoop_cases (fun ex => ex.err = none → ∀ sel' ∈ sel :: rest,
      ∀ ns ∈ matchedNamespaces sel' s, ∀ kind, ∀ q ∈ ex.cluster.objects kind,
        Settled ns sel'.IncludeLabels q)
    · intro e _ h
      simp [LoopExit.err] at h
    · intro _ o ho h
      exact absurd h (namespaceLoop_returned_err _ _ _ _ o ho)
    · intro _ inh1 s2 hfin hok sel' hsel' ns hns kind
      have hn2 : s2.namespaces = s.namespaces := by
        have := namespaceLoop_namespaces sel (matchedNamespaces sel s) inh
          (clientListNamespaces sel.NamespaceSelector.MatchLabels s).2
        rw [hfin] at this
        exact this.trans l2
      rcases List.mem_cons.1 hsel' with rfl | hmem
      · have hset := namespaceLoop_settled s.namespaces hnd sel' (matchedNamespaces sel' s)
          (hsub sel') inh (clientListNamespaces sel'.NamespaceSelector.MatchLabels s).2
          (by rw [hfin]; rfl) ns hns
        rw [hfin] at hset
        exact (selectorLoop_invariant
          (fun s' => ∀ kind, ∀ q ∈ s'.objects kind, Settled ns sel'.IncludeLabels q)
          (fun s₁ s₂ h12 h1 kind => by rw [h12 kind]; exact h1 kind) s.namespaces rest
          (fun kind' sel'' ns'' s' _ hmem' _ hs' kind =>
            syncLabels_keeps_settled kind kind' ns ns'' _ _ s'
              (fun hname => namespace_eq_of_name hnd hmem' (hsub sel' ns hns) hname) (hs' kind))
          inh1 s2 hn2 hset).1 kind
      · have := ih inh1 s2 (by rw [hn2]; exact hnd) hok sel' hmem ns
          (by rw [matchedNamespaces_congr sel' s s2 hn2]; exact hns) kind
        exact this

/-! ## The properties of the specification -/

theorem Reconcile_settled (req : NamespacedName) (s : Cluster)
    (hnd : (s.namespaces.map (fun ns => ns.Name)).Nodup) (hok : (Reconcile req s).err = none) :
    ∀ sel ∈ (Reconcile req s).inheritor.Spec.Selectors, ∀ ns ∈ matchedNamespaces sel s,
      ∀ kind, ∀ q ∈ (Reconcile req s).cluster.objects kind, Settled ns sel.IncludeLabels q := by
  obtain ⟨_, g2, _, _, _⟩ := clientGet_objects req s
  revert hok
  apply Reconcile_cases (fun o => o.err = none → ∀ sel ∈ o.inheritor.Spec.Selectors,
    ∀ ns ∈ matchedNamespaces sel s, ∀ kind, ∀ q ∈ o.cluster.objects kind,
      Settled ns sel.IncludeLabels q)
  · intro e _ _ h
    simp at h
  · intro _ e _ h
    simp at h
  · intro _ _ _ sel hsel
    rw [reconcileLoaded_spec] at hsel
    simp at hsel
  · intro inh _ hok sel hsel ns hns kind
    rw [reconcileLoaded_spec] at hsel
    rw [(reconcileLoaded_eq _ _).2.1] at hok
    rw [(reconcileLoaded_eq _ _).1]
    exact selectorLoop_settled inh.Spec.Selectors _ (clientGet req s).2
      (by rw [g2]; exact hnd) hok sel hsel ns
      (by rw [matchedNamespaces_congr sel s _ g2]; exact hns) kind

/-- C1 (P1, convergence): in a well-formed store, after a pass of `Reconcile` that returned no
error, for every selector of the spec resource, every namespace the namespace listing returns
for it, every pod and every config map stored in that namespace and every key of the selector's
`IncludeLabels`, the object's stored label for the key is the namespace's value for it (the empty
string when the namespace has no such label). -/
theorem Reconcile_converges (req : NamespacedName) (s : Cluster) (hwf : s.WellFormed)
    (hok : (Reconcile req s).err = none) :
    ∀ sel ∈ passSelectors req s, ∀ ns ∈ matchedNamespaces sel s, ∀ kind,
      ∀ obj ∈ (Reconcile req s).cluster.objects kind, obj.Namespace = ns.Name →
        ∀ k ∈ sel.IncludeLabels, labelFind obj.Labels k = some (labelValue ns.Labels k) := by
  intro sel hsel ns hns kind obj hobj hin k hk
  have hsels : (Reconcile req s).inheritor.Spec.Selectors = passSelectors req s := by
    rcases Reconcile_selectors req s with h | ⟨_, h⟩
    · exact h
    · exact absurd hok h
  exact ((Reconcile_settled req s hwf.1 hok sel (hsels ▸ hsel) ns hns kind obj hobj) hin).2 k hk

theorem Reconcile_converges_witness :
    demoCluster.WellFormed ∧ (Reconcile demoKey demoCluster).err = none ∧
    ∀ sel ∈ passSelectors demoKey demoCluster, ∀ ns ∈ matchedNamespaces sel demoCluster, ∀ kind,
      ∀ obj ∈ (Reconcile demoKey demoCluster).cluster.objects kind, obj.Namespace = ns.Name →
        ∀ k ∈ sel.IncludeLabels, labelFind obj.Labels k = some (labelValue ns.Labels k) :=
  ⟨by decide, by decide, Reconcile_converges demoKey demoCluster (by decide) (by decide)⟩

/-- C6 (fixed re-run interval): whatever the request and whatever the store does, the result
`Reconcile` returns asks for the next run after exactly two minutes (in nanoseconds, the unit of
`time.Duration`). -/
theorem Reconcile_requeues_after_two_minutes (req : NamespacedName) (s : Cluster) :
    (Reconcile req s).result.RequeueAfter = 2 * 60 * 1000000000 := by
  have h : (Reconcile req s).result = ⟨Minute * 2⟩ := by
    apply Reconcile_cases (fun o => o.result = ⟨Minute * 2⟩)
    · intro _ _ _
      rfl
    · intro _ _ _
      rfl
    · intro _ _
      exact reconcileLoaded_result _ _
    · intro _ _
      exact reconcileLoaded_result _ _
  rw [h]
  rfl

theorem forall2_trans {α : Type} {R S T : α → α → Prop} {a b c : List α}
    (h₁ : List.Forall₂ R a b) (h₂ : List.Forall₂ S b c)
    (h : ∀ x y z, R x y → S y z → T x z) : List.Forall₂ T a c := by
  induction h₁ generalizing c with
  | nil =>
    cases h₂
    exact List.Forall₂.nil
  | cons hxy _ ih =>
    cases h₂ with
    | cons hyz htl => exact List.Forall₂.cons (h _ _ _ hxy hyz) (ih htl)

theorem object_eq_of_key {l : List Object} (hnd : (l.map Object.key).Nodup) {a b : Object}
    (ha : a ∈ l) (hb : b ∈ l) (h : a.key = b.key) : a = b :=
  List.inj_on_of_nodup_map hnd ha hb h

/-- With keys that identify objects, a synchronization leaves each object alone or relabels
it. -/
theorem touched_nodup {ns : Namespace} {incl : List String} {base : List Object}
    (hnd : (base.map Object.key).Nodup) {q q' : Object} (h : Touched ns incl base q q') :
    q' = q ∨ (q.Namespace = ns.Name ∧ q' = q.inherit ns incl) := by
  obtain ⟨hq, _, h3⟩ := h
  rcases h3 with h3 | ⟨p, hp, hpns, hk, rfl⟩
  · exact Or.inl h3
  · have : p = q := object_eq_of_key hnd hp hq hk
    subst this
    exact Or.inr ⟨hpns, rfl⟩

theorem keepsLabels_refl (sels : List Selector) (q : Object) : KeepsLabels sels q q :=
  ⟨rfl, rfl, fun _ _ => rfl, fun _ h => h⟩

theorem keepsLabels_trans {sels : List Selector} {x y z : Object}
    (h₁ : KeepsLabels sels x y) (h₂ : KeepsLabels sels y z) : KeepsLabels sels x z :=
  ⟨h₂.1.trans h₁.1, h₂.2.1.trans h₁.2.1,
    fun k hk => (h₂.2.2.1 k hk).trans (h₁.2.2.1 k hk),
    fun k hk => h₂.2.2.2 k (h₁.2.2.2 k hk)⟩

theorem keepsLabels_inherit (sels : List Selector) (sel : Selector) (hsel : sel ∈ sels)
    (ns : Namespace) (q : Object) : KeepsLabels sels q (q.inherit ns sel.IncludeLabels) := by
  refine ⟨rfl, rfl, ?_, ?_⟩
  · intro k hk
    show labelFind (inheritLabels ns sel.IncludeLabels q.Labels) k = _
    rw [labelFind_inheritLabels]
    simp [hk sel hsel]
  · intro k hk
    show (labelFind (inheritLabels ns sel.IncludeLabels q.Labels) k).isSome = true
    rw [labelFind_inheritLabels]
    split
    · rfl
    · exact hk

theorem keepsLabels_mono {sels sels' : List Selector} (hsub : ∀ sel ∈ sels, sel ∈ sels')
    {q q' : Object} (h : KeepsLabels sels q q') : KeepsLabels sels' q q' :=
  ⟨h.1, h.2.1, fun k hk => h.2.2.1 k (fun sel hsel => hk sel (hsub sel hsel)), h.2.2.2⟩

/-- C2 (P3, non-destructive): in a well-formed store, whether the pass succeeds or aborts,
every stored pod and config map is afterwards stored in the same place under the same namespace
and name, every label whose key is in no selector's `IncludeLabels` is exactly as before, and no
label key that was present before the pass is absent after it. -/
theorem Reconcile_non_destructive (req : NamespacedName) (s : Cluster) (hwf : s.WellFormed) :
    ∀ kind, List.Forall₂ (KeepsLabels (passSelectors req s)) (s.objects kind)
      ((Reconcile req s).cluster.objects kind) := by
  have hnd : ∀ kind, ((s.objects kind).map Object.key).Nodup := by
    intro kind
    cases kind with
    | pod => exact hwf.2.1
    | configMap => exact hwf.2.2
  have key := (Reconcile_invariant
    (fun s' => ∀ kind, ((s'.objects kind).map Object.key).Nodup ∧
      List.Forall₂ (KeepsLabels (Reconcile req s).inheritor.Spec.Selectors) (s.objects kind)
        (s'.objects kind))
    (fun s₁ s₂ h12 h1 kind => by rw [h12 kind]; exact h1 kind) req s
    (fun kind' sel ns s' hsel _ hs' kind => by
      by_cases hk : kind = kind'
      · subst hk
        refine ⟨by rw [syncLabels_keys]; exact (hs' kind).1, ?_⟩
        refine forall2_trans (hs' kind).2 (syncLabels_touched kind ns sel.IncludeLabels s') ?_
        intro x y z hxy hyz
        rcases touched_nodup (hs' kind).1 hyz with rfl | ⟨_, rfl⟩
        · exact hxy
        · exact keepsLabels_trans hxy (keepsLabels_inherit _ sel hsel ns y)
      · rw [(syncLabels_frame kind' ns sel.IncludeLabels s').2.2.2 kind hk]
        exact hs' kind)
    (fun kind => ⟨hnd kind, (List.forall₂_same).2 (fun q _ => keepsLabels_refl _ q)⟩)).1
  intro kind
  exact (key kind).2.imp (fun _ _ h => keepsLabels_mono (Reconcile_selectors_subset req s) h)

theorem Reconcile_non_destructive_witness :
    conflictCluster.WellFormed ∧
    ∀ kind, List.Forall₂ (KeepsLabels (passSelectors demoKey conflictCluster))
      (conflictCluster.objects kind) ((Reconcile demoKey conflictCluster).cluster.objects kind) :=
  ⟨by decide, Reconcile_non_destructive demoKey conflictCluster (by decide)⟩

theorem confinedTo_trans {names : List String} {x y z : Object}
    (h₁ : ConfinedTo names x y) (h₂ : ConfinedTo names y z) : ConfinedTo names x z := by
  refine ⟨h₂.1.trans h₁.1, ?_⟩
  intro hx
  have hy : y = x := h₁.2 hx
  subst hy
  exact h₂.2 hx

theorem mem_passNamespaces (req : NamespacedName) (s : Cluster) (n : String) :
    n ∈ passNamespaces req s ↔
      ∃ sel ∈ passSelectors req s, ∃ ns ∈ matchedNamespaces sel s, ns.Name = n := by
  simp [passNamespaces, List.mem_flatMap]

/-- Every stored pod and config map keeps its place and key through a pass, and those outside
the namespaces the pass works in are left exactly as they were; the namespaces are untouched. -/
theorem Reconcile_confinedTo (req : NamespacedName) (s : Cluster) :
    (∀ kind, List.Forall₂ (ConfinedTo (passNamespaces req s)) (s.objects kind)
      ((Reconcile req s).cluster.objects kind)) ∧
    (Reconcile req s).cluster.namespaces = s.namespaces :=
  Reconcile_invariant
    (fun s' => ∀ kind, List.Forall₂ (ConfinedTo (passNamespaces req s)) (s.objects kind)
        (s'.objects kind))
    (fun s₁ s₂ h12 h1 kind => by rw [h12 kind]; exact h1 kind) req s
    (fun kind' sel ns s' hsel hns hs' kind => by
      by_cases hk : kind = kind'
      · subst hk
        refine forall2_trans (hs' kind) (syncLabels_touched kind ns sel.IncludeLabels s') ?_
        intro x y z hxy hyz
        refine confinedTo_trans hxy ⟨hyz.2.1, ?_⟩
        intro hy
        rcases hyz.2.2 with h | ⟨p, _, hpns, hpk, _⟩
        · exact h
        · exfalso
          apply hy
          rw [mem_passNamespaces]
          refine ⟨sel, Reconcile_selectors_subset req s sel hsel, ns, hns, ?_⟩
          have : p.Namespace = y.Namespace := congrArg Prod.fst hpk
          rw [← this, hpns]
      · rw [(syncLabels_frame kind' ns sel.IncludeLabels s').2.2.2 kind hk]
        exact hs' kind)
    (fun kind => (List.forall₂_same).2 (fun q _ => ⟨rfl, fun _ => rfl⟩))

/-- The stored keys of pods and config maps are the same after a pass as before. -/
theorem Reconcile_keys (req : NamespacedName) (s : Cluster) (kind : Kind) :
    ((Reconcile req s).cluster.objects kind).map Object.key = (s.objects kind).map Object.key :=
  forall2_map_eq Object.key (fun _ _ h => h.1) ((Reconcile_confinedTo req s).1 kind)

/-- C10 (confinement of writes): in every pass, every update is of a pod or config map lying
in a namespace that the namespace listing returns for a selector of the spec resource; every
stored pod and config map keeps its place and key, and those outside these namespaces are left
exactly as they were; the stored keys and the namespaces are the same after the pass as before
(nothing is created or deleted). -/
theorem Reconcile_confined (req : NamespacedName) (s : Cluster) :
    (∀ ev ∈ passEvents req s, ∀ kind obj, ev.call = .update kind obj →
      ∃ sel ∈ passSelectors req s, ∃ ns ∈ matchedNamespaces sel s, obj.Namespace = ns.Name) ∧
    (∀ kind, List.Forall₂ (ConfinedTo (passNamespaces req s)) (s.objects kind)
      ((Reconcile req s).cluster.objects kind)) ∧
    (∀ kind, ((Reconcile req s).cluster.objects kind).map Object.key
      = (s.objects kind).map Object.key) ∧
    (Reconcile req s).cluster.namespaces = s.namespaces := by
  have hinv := Reconcile_confinedTo req s
  refine ⟨?_, hinv.1, ?_, hinv.2⟩
  · obtain ⟨T, _, hT, _, _, hin⟩ := Reconcile_trace req s
    rw [passEvents_eq req s T hT]
    intro ev hev kind obj hc
    obtain ⟨sel, hsel, ns, hns, hname⟩ := hin ev hev obj.Namespace (by rw [hc]; rfl)
    exact ⟨sel, Reconcile_selectors_subset req s sel hsel, ns, hns, hname.symm⟩
  · exact Reconcile_keys req s

/-! ## The stored spec resources across a pass -/

theorem clientCreate_inheritors (obj : Inheritor) (s : Cluster)
    (h : (clientCreate obj s).1 = none) :
    (clientCreate obj s).2.inheritors = s.inheritors ++ [obj] := by
  unfold clientCreate at h ⊢
  cases hf : s.faults s.trace (.createInheritor obj) with
  | some reason => simp [hf] at h
  | none =>
    by_cases hname : obj.Name = ""
    · simp [hf, hname] at h
    · by_cases hany : s.inheritors.any (fun i => i.hasKey ⟨obj.Namespace, obj.Name⟩) = true
      · simp [hf, hname, hany] at h
      · simp only [hname, if_false, hany]
        rfl

theorem clientStatusUpdate_identity (obj : Inheritor) (s : Cluster) :
    (clientStatusUpdate obj s).2.inheritors.map Inheritor.identity
      = s.inheritors.map Inheritor.identity := by
  unfold clientStatusUpdate
  cases hf : s.faults s.trace (.updateStatus obj) with
  | some reason => simp
  | none =>
    by_cases hany : s.inheritors.any (fun i => i.hasKey ⟨obj.Namespace, obj.Name⟩) = true
    · simp only [hany, if_true]
      show (s.inheritors.map _).map Inheritor.identity = _
      rw [List.map_map]
      apply List.map_congr_left
      intro i _
      simp only [Function.comp]
      split <;> rfl
    · simp only [hany]
      simp

/-- A property of the store kept by every call the namespace loop makes is kept by the loop. -/
theorem namespaceLoop_steps (I : Cluster → Prop) (sel : Selector) (items : List Namespace)
    (hsync : ∀ kind ns s, I s → I (syncLabels kind ns sel.IncludeLabels s).2)
    (hstat : ∀ obj s, I s → I (clientStatusUpdate obj s).2)
    (inh : Inheritor) (s : Cluster) (h : I s) : I (namespaceLoop sel items inh s).cluster := by
  induction items generalizing inh s with
  | nil => simpa [namespaceLoop, LoopExit.cluster] using h
  | cons ns rest ih =>
    have hc := hsync .configMap ns s h
    have hp := hsync .pod ns _ hc
    apply namespaceLoop_cases (fun ex => I ex.cluster)
    · intro e _
      exact hc
    · intro _ e _
      exact hp
    · intro _ _ e _
      exact hstat _ _ hp
    · intro _ _ _
      exact ih _ _ (hstat _ _ hp)

theorem selectorLoop_steps (I : Cluster → Prop) (sels : List Selector)
    (hlist : ∀ ml s, I s → I (clientListNamespaces ml s).2)
    (hsync : ∀ kind ns incl s, I s → I (syncLabels kind ns incl s).2)
    (hstat : ∀ obj s, I s → I (clientStatusUpdate obj s).2)
    (inh : Inheritor) (s : Cluster) (h : I s) : I (selectorLoop sels inh s).cluster := by
  induction sels generalizing inh s with
  | nil => simpa [selectorLoop, LoopExit.cluster] using h
  | cons sel rest ih =>
    have hl := hlist sel.NamespaceSelector.MatchLabels s h
    have hloop := namespaceLoop_steps I sel (matchedNamespaces sel s)
      (fun kind ns s' => hsync kind ns _ s') hstat inh _ hl
    apply selectorLoop_cases (fun ex => I ex.cluster)
    · intro e _
      exact hl
    · intro _ o ho
      rw [ho] at hloop
      exact hloop
    · intro _ inh1 s2 hn
      rw [hn] at hloop
      exact ih inh1 s2 hloop

theorem selectorLoop_identity (sels : List Selector) (inh : Inheritor) (s : Cluster) :
    (selectorLoop sels inh s).cluster.inheritors.map Inheritor.identity
      = s.inheritors.map Inheritor.identity :=
  selectorLoop_steps
    (fun s' => s'.inheritors.map Inheritor.identity = s.inheritors.map Inheritor.identity) sels
    (fun ml s' h => by beta_reduce at h ⊢; rw [(clientListNamespaces_spec ml s').2.2.1]; exact h)
    (fun kind ns incl s' h => by
      beta_reduce at h ⊢; rw [(syncLabels_frame kind ns incl s').2.2.1]; exact h)
    (fun obj s' h => by beta_reduce at h ⊢; rw [clientStatusUpdate_identity]; exact h)
    inh s rfl

theorem find_map_congr {α β : Type} (f : α → β) (p : α → Bool)
    (hp : ∀ a b, f a = f b → p a = p b) :
    ∀ l l' : List α, l.map f = l'.map f → (l.find? p).map f = (l'.find? p).map f := by
  intro l
  induction l with
  | nil =>
    intro l' h
    cases l' with
    | nil => rfl
    | cons _ _ => simp at h
  | cons a as ih =>
    intro l' h
    cases l' with
    | nil => simp at h
    | cons b bs =>
      simp only [List.map_cons, List.cons.injEq] at h
      have hpab := hp a b h.1
      by_cases hb : p b = true
      · simp [List.find?, hpab, hb, h.1]
      · have hb' : p b = false := by simpa using hb
        simp only [List.find?, hpab, hb']
        exact ih bs h.2

theorem passSelectors_eq (req : NamespacedName) (s : Cluster) :
    passSelectors req s
      = match (s.inheritors.find? (fun i => i.hasKey req)).map Inheritor.identity with
        | some idn => idn.2.2.Selectors
        | none => [] := by
  unfold passSelectors
  cases s.inheritors.find? (fun i => i.hasKey req) <;> rfl

theorem passSelectors_congr (req : NamespacedName) (s s' : Cluster)
    (h : s'.inheritors.map Inheritor.identity = s.inheritors.map Inheritor.identity) :
    passSelectors req s' = passSelectors req s := by
  rw [passSelectors_eq, passSelectors_eq,
    find_map_congr Inheritor.identity (fun i => i.hasKey req) ?_ _ _ h]
  intro a b hab
  simp only [Inheritor.identity, Prod.mk.injEq] at hab
  simp [Inheritor.hasKey, hab.1, hab.2.1]

/-- After a pass that succeeded, the spec resource stored under the request has no selector
it did not have before. -/
theorem passSelectors_after (req : NamespacedName) (s : Cluster)
    (hok : (Reconcile req s).err = none) :
    ∀ sel ∈ passSelectors req (Reconcile req s).cluster, sel ∈ passSelectors req s := by
  obtain ⟨r1, r2⟩ := clientGet_result req s
  obtain ⟨_, _, _, g4, _⟩ := clientGet_objects req s
  revert hok
  apply Reconcile_cases (fun o => o.err = none →
    ∀ sel ∈ passSelectors req o.cluster, sel ∈ passSelectors req s)
  · intro e _ _ h
    simp at h
  · intro _ e _ h
    simp at h
  · intro hg hc _ sel hsel
    exfalso
    rw [(reconcileLoaded_eq _ _).1] at hsel
    simp only [selectorLoop, LoopExit.cluster] at hsel
    unfold passSelectors at hsel
    rw [clientCreate_inheritors _ _ hc, g4, List.find?_append, r2 hg] at hsel
    simp only [Option.none_or] at hsel
    by_cases hk : (({ Status := { Namespaces := some [] } } : Inheritor).hasKey req) = true
    · simp [List.find?, hk] at hsel
    · simp [List.find?, hk] at hsel
  · intro inh _ _ sel hsel
    rw [(reconcileLoaded_eq _ _).1] at hsel
    rw [passSelectors_congr req s _ ((selectorLoop_identity _ _ _).trans (by rw [g4]))] at hsel
    exact hsel

/-- C8 (P2, idempotence): in a well-formed store, when a pass of `Reconcile` returned no error,
a second pass run on the store the first one left (nothing changed in between) leaves every
stored pod and every stored config map, label map included, exactly as the first pass left it;
this holds for every second pass, so in particular for one that returns no error. -/
theorem Reconcile_idempotent (req : NamespacedName) (s : Cluster) (hwf : s.WellFormed)
    (h₁ : (Reconcile req s).err = none) :
    ∀ kind, (Reconcile req (Reconcile req s).cluster).cluster.objects kind
      = (Reconcile req s).cluster.objects kind := by
  have hkeys := Reconcile_keys req s
  have hns := (Reconcile_confinedTo req s).2
  have hnd : ∀ kind, (((Reconcile req s).cluster.objects kind).map Object.key).Nodup := by
    intro kind
    rw [hkeys kind]
    cases kind with
    | pod => exact hwf.2.1
    | configMap => exact hwf.2.2
  have hsels : (Reconcile req s).inheritor.Spec.Selectors = passSelectors req s := by
    rcases Reconcile_selectors req s with h | ⟨_, h⟩
    · exact h
    · exact absurd h₁ h
  have hset := Reconcile_settled req s hwf.1 h₁
  have hinv := (Reconcile_invariant
    (fun s' => ∀ kind, s'.objects kind = (Reconcile req s).cluster.objects kind)
    (fun s₁ s₂ h12 h1 kind => by rw [h12 kind]; exact h1 kind) req (Reconcile req s).cluster
    (fun kind' sel ns s' hsel hmem hs' kind => by
      have hsel' : sel ∈ (Reconcile req s).inheritor.Spec.Selectors := by
        rw [hsels]
        exact passSelectors_after req s h₁ sel (Reconcile_selectors_subset _ _ sel hsel)
      have hmem' : ns ∈ matchedNamespaces sel s := by
        rw [← matchedNamespaces_congr sel s _ hns]
        exact hmem
      by_cases hk : kind = kind'
      · subst hk
        have ht := syncLabels_touched kind ns sel.IncludeLabels s'
        rw [hs' kind] at ht
        have := forall2_map_eq id (R := Touched ns sel.IncludeLabels
          ((Reconcile req s).cluster.objects kind)) (fun y z hyz => by
            rcases touched_nodup (hnd kind) hyz with h | ⟨hyns, h⟩
            · exact h
            · rw [h]
              exact settled_inherit_eq ns sel.IncludeLabels y hyns
                (hset sel hsel' ns hmem' kind y hyz.1)) ht
        simpa using this
      · rw [(syncLabels_frame kind' ns sel.IncludeLabels s').2.2.2 kind hk]
        exact hs' kind)
    (fun _ => rfl)).1
  exact hinv

theorem Reconcile_idempotent_witness :
    demoCluster.WellFormed ∧ (Reconcile demoKey demoCluster).err = none ∧
    (Reconcile demoKey (Reconcile demoKey demoCluster).cluster).err = none ∧
    ∀ kind, (Reconcile demoKey (Reconcile demoKey demoCluster).cluster).cluster.objects kind
      = (Reconcile demoKey demoCluster).cluster.objects kind :=
  ⟨by decide, by decide, by decide,
    Reconcile_idempotent demoKey demoCluster (by decide) (by decide)⟩

/-- The resource `Reconcile` builds when the lookup finds none has no name, so its creation
never succeeds. -/
theorem clientCreate_nameless (s : Cluster) :
    (clientCreate { Status := { Namespaces := some [] } } s).1 ≠ none ∧
    (clientCreate { Status := { Namespaces := some [] } } s).2.inheritors = s.inheritors := by
  unfold clientCreate
  cases hf : s.faults s.trace (.createInheritor { Status := { Namespaces := some [] } }) with
  | some reason => simp
  | none => simp

/-- Whenever the lookup of the spec resource answers that there is none, the pass returns an
error and no resource is stored: the create call is made with a nameless object. -/
theorem Reconcile_cannot_auto_create (req : NamespacedName) (s : Cluster)
    (hget : (clientGet req s).1 = .error .notFound) :
    (Reconcile req s).err ≠ none ∧ (Reconcile req s).cluster.inheritors = s.inheritors := by
  obtain ⟨_, _, _, g4, _⟩ := clientGet_objects req s
  obtain ⟨c1, c2⟩ := clientCreate_nameless (clientGet req s).2
  apply Reconcile_cases (fun o => o.err ≠ none ∧ o.cluster.inheritors = s.inheritors)
  · intro e _ _
    exact ⟨by simp, g4⟩
  · intro _ e _
    exact ⟨by simp, c2.trans g4⟩
  · intro _ hc
    exact absurd hc c1
  · intro inh he
    rw [hget] at he
    exact Except.noConfusion he

/-- C7 (P5, the code at the failing input): reconciling `default/test-inheritor` on a store
without any spec resource. The lookup answers not found; the resource `Reconcile` then builds
(empty selector list, empty non-nil status map) has no name, so the create call is rejected as
invalid; the pass returns that error after these two calls and no resource is stored. -/
theorem auto_creation_rejected :
    bareCluster.inheritors = [] ∧
    (Reconcile demoKey bareCluster).err = some .invalid ∧
    passEvents demoKey bareCluster
      = [⟨.getInheritor demoKey, some .notFound⟩,
         ⟨.createInheritor { Status := { Namespaces := some [] } }, some .invalid⟩] ∧
    (Reconcile demoKey bareCluster).cluster.inheritors = [] := by
  decide

theorem abortedSyncing_unique {T : List Event} {n m : String} (hn : AbortedSyncing T n)
    (hm : AbortedSyncing T m) : m = n := by
  obtain ⟨pre, c, e, hT, hc⟩ := hn
  obtain ⟨pre', c', e', hT', hc'⟩ := hm
  rw [hT] at hT'
  have := List.append_inj_right' hT' rfl
  simp only [List.cons.injEq, and_true, Event.mk.injEq] at this
  rw [this.1, hc'] at hc
  exact Option.some.inj hc

/-- The status map of the resource object a pass holds in memory when it returns: when the
pass aborted because synchronizing namespace `n` failed, that map marks `n` as not synced and
every other namespace the pass worked in as synced. This map is not what the store holds: the
failure path returns without a status update. -/
theorem Reconcile_status_accurate (req : NamespacedName) (s : Cluster) (n : String)
    (habort : AbortedSyncing (passEvents req s) n) :
    (Reconcile req s).inheritor.statusOf n = some ⟨n, false⟩ ∧
    ∀ m, m ≠ n → WorkedIn (passEvents req s) m →
      (Reconcile req s).inheritor.statusOf m = some ⟨m, true⟩ := by
  obtain ⟨T, inh₀, hT, _, hacc, _⟩ := Reconcile_trace req s
  rw [passEvents_eq req s T hT] at habort ⊢
  refine ⟨hacc.1 n habort, ?_⟩
  intro m hne hm
  exact hacc.2 m (Or.inl hm) (fun h => hne (abortedSyncing_unique habort h))

theorem Reconcile_status_accurate_witness :
    AbortedSyncing (passEvents demoKey splitCluster) "beta" ∧
    (Reconcile demoKey splitCluster).inheritor.statusOf "beta" = some ⟨"beta", false⟩ ∧
    ∀ m, m ≠ "beta" → WorkedIn (passEvents demoKey splitCluster) m →
      (Reconcile demoKey splitCluster).inheritor.statusOf m = some ⟨m, true⟩ :=
  ⟨⟨(passEvents demoKey splitCluster).dropLast, .list .configMap "beta", .failure "unavailable",
      by decide, rfl⟩,
    Reconcile_status_accurate demoKey splitCluster "beta"
      ⟨(passEvents demoKey splitCluster).dropLast, .list .configMap "beta", .failure "unavailable",
        by decide, rfl⟩⟩

/-- C4 (P4, the code at the failing input): the spec resource of `repeatCluster` has two
selectors that both match `default`. The first synchronizes `default` and persists
`LabelsSynced: true` for it; under the second the listing of its config maps fails and the pass
aborts. The object the pass holds marks `default` as not synced, but no status update is made on
the failure path, so the status map of the stored spec resource still says
`default = {Name: default, LabelsSynced: true}` for the namespace that just failed. -/
theorem stored_status_of_failed_namespace_stays_synced :
    (Reconcile demoKey repeatCluster).err = some (.failure "unavailable") ∧
    (passEvents demoKey repeatCluster).getLast?
      = some ⟨.list .configMap "default", some (.failure "unavailable")⟩ ∧
    (Reconcile demoKey repeatCluster).inheritor.statusOf "default" = some ⟨"default", false⟩ ∧
    ((clientGet demoKey (Reconcile demoKey repeatCluster).cluster).1.toOption.map
      (fun stored => stored.statusOf "default")) = some (some ⟨"default", true⟩) := by
  decide

/-- C5 (the code at the failing input): the pass over `splitCluster` aborts while synchronizing
`beta`; the resource the pass holds in memory marks `beta` as not synced, but the resource
stored in the spec store (what a later get returns) has no entry for `beta` at all: no status
update is made on the failure path. -/
theorem status_of_failed_namespace_not_persisted :
    (Reconcile demoKey splitCluster).err = some (.failure "unavailable") ∧
    (Reconcile demoKey splitCluster).inheritor.statusOf "beta" = some ⟨"beta", false⟩ ∧
    ((clientGet demoKey (Reconcile demoKey splitCluster).cluster).1.toOption.map
      (fun stored => (stored.statusOf "alpha", stored.statusOf "beta")))
      = some (some ⟨"alpha", true⟩, none) := by
  decide

/-- C3 (the claim fails as stated): in the pass over `conflictCluster` the update of the pod
`p2` of `default` fails, and yet the config map `c1` of `default` has already been updated by
that pass, in the store and in the calls made. -/
theorem config_map_updated_before_failing_pod :
    (⟨.update .pod ⟨"default", "p2", some [("app", "new-label")]⟩, some (.failure "conflict")⟩ :
      Event) ∈ passEvents demoKey conflictCluster ∧
    (⟨.update .configMap ⟨"default", "c1", some [("owner", "team"), ("app", "new-label")]⟩, none⟩ :
      Event) ∈ passEvents demoKey conflictCluster ∧
    conflictCluster.configMaps = [⟨"default", "c1", some [("owner", "team")]⟩] ∧
    (Reconcile demoKey conflictCluster).cluster.configMaps
      = [⟨"default", "c1", some [("owner", "team"), ("app", "new-label")]⟩] := by
  decide

/-- C3 (amended): within one iteration of the namespace loop the config-map phase comes first
and is complete before any pod is touched, and its failure skips the pod phase entirely.
(1) `syncConfigMapLabels` leaves the stored pods as they are, and every call it makes is a
config-map call in the namespace. (2) When it fails, the iteration returns that error at once,
in the store it left and with the namespace marked not synced: no pod is listed or updated.
(3) When it succeeds, the calls of the loop from there on begin with those of `syncPodLabels`,
run on the store the config-map phase left. -/
theorem config_maps_before_pods (sel : Selector) (ns : Namespace) (rest : List Namespace)
    (inh : Inheritor) (s : Cluster) :
    ((syncConfigMapLabels ns sel.IncludeLabels s).2.pods = s.pods ∧
      ∀ ev ∈ (syncConfigMapLabels ns sel.IncludeLabels s).2.trace.drop s.trace.length,
        ev.call.objectKind = some .configMap ∧ ev.call.objectNamespace = some ns.Name) ∧
    (∀ e, (syncConfigMapLabels ns sel.IncludeLabels s).1 = some e →
      namespaceLoop sel (ns :: rest) inh s
        = .returned ⟨⟨Minute * 2⟩, some e, inh.setStatus ns.Name ⟨ns.Name, false⟩,
            (syncConfigMapLabels ns sel.IncludeLabels s).2⟩) ∧
    ((syncConfigMapLabels ns sel.IncludeLabels s).1 = none →
      ∃ T, (namespaceLoop sel (ns :: rest) inh s).cluster.trace
        = (syncPodLabels ns sel.IncludeLabels
            (syncConfigMapLabels ns sel.IncludeLabels s).2).2.trace ++ T) := by
  refine ⟨⟨?_, ?_⟩, ?_, ?_⟩
  · exact (syncLabels_frame .configMap ns sel.IncludeLabels s).2.2.2 .pod (by simp)
  · obtain ⟨T, hT, _, hns, hkind⟩ := syncLabels_events .configMap ns sel.IncludeLabels s
    intro ev hev
    simp only [syncConfigMapLabels] at hev
    rw [hT, List.drop_left] at hev
    exact ⟨hkind ev hev, hns ev hev⟩
  · intro e hfail
    rcases hc : syncConfigMapLabels ns sel.IncludeLabels s with ⟨_ | e1, s1⟩
    · rw [hc] at hfail
      exact Option.noConfusion hfail
    · rw [hc] at hfail
      cases hfail
      simp only [namespaceLoop, hc]
  · intro hok
    simp only [syncConfigMapLabels, syncPodLabels] at hok ⊢
    apply namespaceLoop_cases (fun ex => ∃ T, ex.cluster.trace
      = (syncLabels .pod ns sel.IncludeLabels
          (syncLabels .configMap ns sel.IncludeLabels s).2).2.trace ++ T)
    · intro e he
      rw [hok] at he
      exact Option.noConfusion he
    · intro _ e _
      exact ⟨[], by simp [LoopExit.cluster]⟩
    · intro _ _ e _
      exact ⟨_, (clientStatusUpdate_spec _ _).2.2.2⟩
    · intro _ _ _
      obtain ⟨T, hT, _⟩ := namespaceLoop_trace sel rest (inh.setStatus ns.Name ⟨ns.Name, true⟩)
        (clientStatusUpdate (inh.setStatus ns.Name ⟨ns.Name, true⟩)
          (syncLabels .pod ns sel.IncludeLabels
            (syncLabels .configMap ns sel.IncludeLabels s).2).2).2
      refine ⟨[⟨.updateStatus (inh.setStatus ns.Name ⟨ns.Name, true⟩),
        (clientStatusUpdate (inh.setStatus ns.Name ⟨ns.Name, true⟩)
          (syncLabels .pod ns sel.IncludeLabels
            (syncLabels .configMap ns sel.IncludeLabels s).2).2).1⟩] ++ T, ?_⟩
      rw [hT, (clientStatusUpdate_spec _ _).2.2.2]
      simp

theorem config_maps_before_pods_witness :
    (syncConfigMapLabels demoNamespace demoSelector.IncludeLabels readOnlyConfigMaps).1
      = some (.failure "conflict") ∧
    namespaceLoop demoSelector [demoNamespace] demoInheritor readOnlyConfigMaps
      = .returned ⟨⟨Minute * 2⟩, some (.failure "conflict"),
          demoInheritor.setStatus demoNamespace.Name ⟨demoNamespace.Name, false⟩,
          (syncConfigMapLabels demoNamespace demoSelector.IncludeLabels readOnlyConfigMaps).2⟩ ∧
    (syncConfigMapLabels demoNamespace demoSelector.IncludeLabels readOnlyConfigMaps).2.pods
      = readOnlyConfigMaps.pods :=
  ⟨by decide,
    (config_maps_before_pods demoSelector demoNamespace [] demoInheritor readOnlyConfigMaps).2.1
      (.failure "conflict") (by decide),
    (config_maps_before_pods demoSelector demoNamespace [] demoInheritor
      readOnlyConfigMaps).1.1⟩

/-! ## A pod update that fails -/

/-- A failed call on pods or config maps is the last call of its pass, and its error is the
error the pass returns. -/
theorem Reconcile_stops_at_failed_call (req : NamespacedName) (s : Cluster)
    (before after : List Event) (ev : Event) (e : APIError)
    (hT : passEvents req s = before ++ ev :: after) (herr : ev.err = some e)
    (hcall : ev.call.objectKind.isSome) : after = [] ∧ (Reconcile req s).err = some e := by
  obtain ⟨T, _, hTr, hstop, _, _⟩ := Reconcile_trace req s
  rw [passEvents_eq req s T hTr] at hT
  refine stops_failed_last hstop before after ev e hT herr ?_
  intro key hk
  rw [hk] at hcall
  simp [Call.objectKind] at hcall

theorem relabel_step (ns : Namespace) (incl : List String) (base : List Object)
    (hnd : (base.map Object.key).Nodup) (done : List Object) (q : Object) (hq : q ∈ base) :
    (base.map (fun b => if b ∈ done then b.inherit ns incl else b)).map
        (fun x : Object => if x.sameKey (q.inherit ns incl) then q.inherit ns incl else x)
      = base.map (fun b => if b ∈ done ++ [q] then b.inherit ns incl else b) := by
  rw [List.map_map]
  apply List.map_congr_left
  intro b hb
  simp only [Function.comp]
  have hkey : (if b ∈ done then b.inherit ns incl else b).key = b.key := by
    split <;> rfl
  by_cases hbq : b = q
  · subst hbq
    have : (if b ∈ done then b.inherit ns incl else b).sameKey (b.inherit ns incl) = true := by
      rw [sameKey_iff, hkey, inherit_key]
    simp [this]
  · have : ¬ (if b ∈ done then b.inherit ns incl else b).sameKey (q.inherit ns incl) = true := by
      rw [sameKey_iff, hkey, inherit_key]
      exact fun h => hbq (object_eq_of_key hnd hb hq h)
    simp [this, hbq]

/-- The loop over `pre ++ p :: post` when the store accepts the updates of `pre` and refuses
the update of `p`. -/
theorem syncLoop_refused (kind : Kind) (ns : Namespace) (incl : List String)
    (base : List Object) (hnd : (base.map Object.key).Nodup) (p : Object) (post : List Object)
    (reason : String) :
    ∀ (pre done : List Object) (s : Cluster), (∀ q ∈ pre, q ∈ base) →
      s.objects kind = base.map (fun b => if b ∈ done then b.inherit ns incl else b) →
      (∀ pre₁ q post₁, pre = pre₁ ++ q :: post₁ →
        s.faults (s.trace ++ updatedEvents kind ns incl pre₁) (.update kind (q.inherit ns incl))
          = none) →
      s.faults (s.trace ++ updatedEvents kind ns incl pre) (.update kind (p.inherit ns incl))
        = some reason →
      (syncLoop kind ns incl (pre ++ p :: post) s).1 = some (.failure reason) ∧
      (syncLoop kind ns incl (pre ++ p :: post) s).2.trace
        = s.trace ++ updatedEvents kind ns incl pre
            ++ [⟨.update kind (p.inherit ns incl), some (.failure reason)⟩] ∧
      (syncLoop kind ns incl (pre ++ p :: post) s).2.objects kind
        = base.map (fun b => if b ∈ done ++ pre then b.inherit ns incl else b) := by
  intro pre
  induction pre with
  | nil =>
    intro done s _ hobj _ hfail
    simp only [updatedEvents, List.map_nil, List.append_nil] at hfail
    have hu := clientUpdate_fault kind _ s reason hfail
    simp only [List.nil_append, syncLoop_cons, hu]
    refine ⟨trivial, ?_, ?_⟩
    · simp [updatedEvents]
    · simp [hobj]
  | cons q pre' ih =>
    intro done s hmem hobj hpre hfail
    have hq : q ∈ base := hmem q (by simp)
    have hfq : s.faults s.trace (.update kind (q.inherit ns incl)) = none := by
      have := hpre [] q pre' rfl
      simpa [updatedEvents] using this
    have hex : ∃ x ∈ s.objects kind, x.sameKey (q.inherit ns incl) = true := by
      refine ⟨if q ∈ done then q.inherit ns incl else q, ?_, ?_⟩
      · rw [hobj]
        exact List.mem_map.2 ⟨q, hq, rfl⟩
      · rw [sameKey_iff, inherit_key]
        split <;> rfl
    have hnone := (clientUpdate_eq_none_iff kind (q.inherit ns incl) s).2 ⟨hfq, hex⟩
    obtain ⟨u1, _, _, u4, _, u6⟩ := clientUpdate_spec kind (q.inherit ns incl) s
    rw [hnone] at u4 u6
    simp only [if_true] at u6
    rw [hobj, relabel_step ns incl base hnd done q hq] at u6
    have hstep : syncLoop kind ns incl ((q :: pre') ++ p :: post) s
        = syncLoop kind ns incl (pre' ++ p :: post) (clientUpdate kind (q.inherit ns incl) s).2 := by
      rw [List.cons_append, syncLoop_cons]
      rcases hu : clientUpdate kind (q.inherit ns incl) s with ⟨_ | err, s1⟩
      · rfl
      · rw [hu] at hnone
        exact Option.noConfusion hnone
    obtain ⟨i1, i2, i3⟩ := ih (done ++ [q]) (clientUpdate kind (q.inherit ns incl) s).2
      (fun x hx => hmem x (by simp [hx])) u6
      (by
        intro pre₁ q' post₁ hsplit
        rw [u1, u4]
        have := hpre (q :: pre₁) q' post₁ (by rw [hsplit]; rfl)
        simpa [updatedEvents] using this)
      (by
        rw [u1, u4]
        simpa [updatedEvents] using hfail)
    rw [hstep]
    refine ⟨i1, ?_, ?_⟩
    · rw [i2, u4]
      simp [updatedEvents]
    · rw [i3]
      simp

/-- C9 (abort on the first write failure, no rollback, no retry): in a well-formed store, let
the pods of the namespace be listed as `pre ++ p :: post`, let the store accept the listing and
the updates of the pods of `pre`, and refuse the update of `p`. Then `syncPodLabels` returns that
failure; the calls it made are the listing, one successful update for each pod of `pre`, in
order, and one failed update of `p`, and no other (no second attempt on `p`, no update of a pod
of `post`); in the store exactly the pods of `pre` carry the copied labels and every other pod
is as before. And in any pass of `Reconcile`, a failed pod update is the last call and its error
is the error `Reconcile` returns. -/
theorem pod_update_failure_aborts (ns : Namespace) (incl : List String) (s : Cluster)
    (pre post : List Object) (p : Object) (reason : String) (hwf : s.WellFormed)
    (hlist : s.faults s.trace (.list .pod ns.Name) = none)
    (hitems : s.pods.filter (fun q => decide (q.Namespace = ns.Name)) = pre ++ p :: post)
    (hpre : ∀ pre₁ q post₁, pre = pre₁ ++ q :: post₁ →
      s.faults (s.trace ++ ⟨.list .pod ns.Name, none⟩ :: updatedEvents .pod ns incl pre₁)
        (.update .pod (q.inherit ns incl)) = none)
    (hfail : s.faults (s.trace ++ ⟨.list .pod ns.Name, none⟩ :: updatedEvents .pod ns incl pre)
      (.update .pod (p.inherit ns incl)) = some reason) :
    (syncPodLabels ns incl s).1 = some (.failure reason) ∧
    (syncPodLabels ns incl s).2.trace
      = s.trace ++ ⟨.list .pod ns.Name, none⟩ :: updatedEvents .pod ns incl pre
          ++ [⟨.update .pod (p.inherit ns incl), some (.failure reason)⟩] ∧
    (syncPodLabels ns incl s).2.pods
      = s.pods.map (fun q => if q ∈ pre then q.inherit ns incl else q) ∧
    ∀ (req : NamespacedName) (s₀ : Cluster) (before after : List Event) (obj : Object)
      (e : APIError), passEvents req s₀ = before ++ ⟨.update .pod obj, some e⟩ :: after →
        after = [] ∧ (Reconcile req s₀).err = some e := by
  have hl : clientList .pod ns.Name s
      = (.ok (pre ++ p :: post), s.record (.list .pod ns.Name) none) := by
    simp only [clientList, hlist]
    rw [← hitems]
    rfl
  have hsync : syncPodLabels ns incl s
      = syncLoop .pod ns incl (pre ++ p :: post) (s.record (.list .pod ns.Name) none) := by
    simp only [syncPodLabels, syncLabels, hl]
  have hmem : ∀ q ∈ pre, q ∈ s.pods := by
    intro q hq
    have : q ∈ s.pods.filter (fun q => decide (q.Namespace = ns.Name)) := by
      rw [hitems]
      simp [hq]
    exact (List.mem_filter.1 this).1
  obtain ⟨h1, h2, h3⟩ := syncLoop_refused .pod ns incl s.pods hwf.2.1 p post reason pre []
    (s.record (.list .pod ns.Name) none) hmem (by rw [record_objects]; simp [Cluster.objects])
    (by
      intro pre₁ q post₁ hsplit
      have := hpre pre₁ q post₁ hsplit
      simpa using this)
    (by simpa using hfail)
  rw [hsync]
  refine ⟨h1, ?_, ?_, ?_⟩
  · rw [h2]
    simp
  · have : (syncLoop .pod ns incl (pre ++ p :: post) (s.record (.list .pod ns.Name) none)).2.pods
        = (syncLoop .pod ns incl (pre ++ p :: post)
            (s.record (.list .pod ns.Name) none)).2.objects .pod := rfl
    rw [this, h3]
    simp
  · intro req s₀ before after obj e hT
    exact Reconcile_stops_at_failed_call req s₀ before after _ e hT rfl rfl

theorem pod_update_failure_aborts_witness :
    conflictCluster.WellFormed ∧
    (syncPodLabels demoNamespace ["app"] conflictCluster).1 = some (.failure "conflict") ∧
    (syncPodLabels demoNamespace ["app"] conflictCluster).2.trace
      = conflictCluster.trace ++ ⟨.list .pod demoNamespace.Name, none⟩ ::
          updatedEvents .pod demoNamespace ["app"] [⟨"default", "p1", some [("foo", "bar")]⟩]
          ++ [⟨.update .pod ((⟨"default", "p2", some [("app", "old-label")]⟩ : Object).inherit
              demoNamespace ["app"]), some (.failure "conflict")⟩] ∧
    (syncPodLabels demoNamespace ["app"] conflictCluster).2.pods
      = conflictCluster.pods.map (fun q =>
          if q ∈ [(⟨"default", "p1", some [("foo", "bar")]⟩ : Object)] then
            q.inherit demoNamespace ["app"]
          else q) ∧
    ∀ (req : NamespacedName) (s₀ : Cluster) (before after : List Event) (obj : Object)
      (e : APIError), passEvents req s₀ = before ++ ⟨.update .pod obj, some e⟩ :: after →
        after = [] ∧ (Reconcile req s₀).err = some e :=
  ⟨by decide,
    pod_update_failure_aborts demoNamespace ["app"] conflictCluster
      [⟨"default", "p1", some [("foo", "bar")]⟩] [⟨"default", "p3", none⟩]
      ⟨"default", "p2", some [("app", "old-label")]⟩ "conflict" (by decide) rfl (by decide)
      (by
        intro pre₁ q post₁ h
        have hq : q ∈ [(⟨"default", "p1", some [("foo", "bar")]⟩ : Object)] := by
          rw [h]
          simp
        simp only [List.mem_singleton] at hq
        subst hq
        rfl)
      rfl⟩

end LabelInheritance
